import Mathlib

/-!
# AR book reading enhancer: the recognition core of OpenCVAndroidLibrary.cpp

A shallow embedding of `OpenCVAndroidLibrary.cpp`: the training registry
(`addImage`, `initScan`, `removeImages`), the per-frame pipeline (`processImage`)
and the match filter and geometric verifier (`doMatching`).

* The global variables of the translation unit are the fields of `State`.
* The OpenCV primitives the file calls (colour conversion, resizing, BRISK,
  the brute-force matcher, `findHomography`, `perspectiveTransform`, `solvePnP`,
  `Rodrigues`) are the fields of `Vision`; every definition takes them as a parameter.
* A C `float` is a rational number, and every `float` operation rounds its exact
  result to binary32 (`roundF32`: nearest, ties to even, subnormals, no overflow to
  infinity, no NaN).  A `double` holds the integers and halves stored in it exactly.
* A `std::vector` read outside its bounds and an OpenCV exception are `none`.
* C `int` values are unbounded integers: no count or index in the file comes near `2^31`.
  The one `int` that can leave the range is the sum of projected corner coordinates in
  `processImage`: a homography accepted by `doMatching` can send a corner anywhere.  The
  conversion of a `float` to that `int` is `floatToInt`: it drops the fraction while the
  result fits an `int`, and beyond that, where C++ leaves the conversion undefined, it is
  the value the processor gives (`Vision.convertOutOfRange`).  The two other conversions
  of a `float` to `int` (a resized frame dimension, a BRISK response) are of values far
  below `2^31` and are `truncToInt`.
-/

namespace OpenCVAndroidLibrary

/-! ## The `float` model -/

/-- Nearest integer of a rational, a tie going to the even neighbour. -/
def roundEven (q : ℚ) : ℤ :=
  let f := ⌊q⌋
  let r := q - f
  if r < 1 / 2 then f else if 1 / 2 < r then f + 1 else if f % 2 = 0 then f else f + 1

/-- The search of `natLog2`: halve until below 2, at most `fuel` times. -/
def log2Fuel : ℕ → ℕ → ℕ
  | 0, _ => 0
  | fuel + 1, n => if n < 2 then 0 else log2Fuel fuel (n / 2) + 1

/-- Binary logarithm of a positive natural number, rounded down. -/
def natLog2 (n : ℕ) : ℕ := log2Fuel n n

/-- Binary exponent of a nonzero rational: the `e` with `2^e ≤ |q| < 2^(e+1)`. -/
def floorLog2 (q : ℚ) : ℤ :=
  let e0 : ℤ := (natLog2 q.num.natAbs : ℤ) - (natLog2 q.den : ℤ)
  if (2 : ℚ) ^ e0 ≤ |q| then e0 else e0 - 1

/-- Rounding of an exact result to binary32: 24 significant bits, least exponent `-126`. -/
def roundF32 (q : ℚ) : ℚ :=
  if q = 0 then 0 else
  let e := max (floorLog2 q) (-126)
  let ulp : ℚ := (2 : ℚ) ^ (e - 23)
  (roundEven (q / ulp) : ℚ) * ulp

/-- The `float` product. -/
def mulF32 (a b : ℚ) : ℚ := roundF32 (a * b)

/-- The `float` quotient. -/
def divF32 (a b : ℚ) : ℚ := roundF32 (a / b)

/-- The `float` sum. -/
def addF32 (a b : ℚ) : ℚ := roundF32 (a + b)

/-- Conversion `(float) n` of an integer. -/
def intToF32 (n : ℤ) : ℚ := roundF32 (n : ℚ)

/-- Conversion `(int) x` of a `float`: the fraction is dropped (rounding toward zero). -/
def truncToInt (q : ℚ) : ℤ := Int.tdiv q.num (q.den : ℤ)

/-- The least value of an `int`. -/
def INT_MIN : ℤ := -2147483648

/-- The greatest value of an `int`. -/
def INT_MAX : ℤ := 2147483647

/-! ## Constants of the source -/

/-- How many attempts are made at the predicted image before others are tried. -/
def TOTAL_PREDICTION_ATTEMPTS : ℤ := 3

/-- Minimum number of matches required to consider the object found. -/
def REQUIRED_MATCHES : ℕ := 4

/-- How many keypoints there have to be before some are deleted. -/
def MIN_KEYPOINTS_FOR_REDUCTION : ℕ := 800

/-- The `float` constant `0.6f`. -/
def MIN_RESPONSE_FACTOR : ℚ := roundF32 (6 / 10)

/-- Dimension to which the query images are scaled. -/
def QUERY_IMAGE_REQUIRED_SIZE : ℤ := 360

/-- Dimension to which the train images are scaled. -/
def TRAIN_IMAGE_REQUIRED_SIZE : ℤ := 240

/-- The `float` constant `3.0f`. -/
def MIN_DISTANCE_FACTOR : ℚ := roundF32 3

/-- The `float` constant `0.9f`. -/
def KNN_MATCHES_SIMILARITY_FACTOR : ℚ := roundF32 (9 / 10)

/-- The `float` constant `0.65f`. -/
def REQUIRED_INLIERS : ℚ := roundF32 (65 / 100)

/-! ## Data -/

/-- The type `cv::Point2f`. -/
structure Point2f where
  x : ℚ
  y : ℚ
deriving DecidableEq

/-- The type `cv::Point3f`. -/
structure Point3f where
  x : ℚ
  y : ℚ
  z : ℚ
deriving DecidableEq

/-- The type `cv::KeyPoint`. -/
structure KeyPoint where
  pt : Point2f
  size : ℚ
  angle : ℚ
  response : ℚ
  octave : ℤ
  class_id : ℤ
deriving DecidableEq

/-- The type `cv::DMatch`; `operator<` compares `distance` alone. -/
structure DMatch where
  queryIdx : ℤ
  trainIdx : ℤ
  imgIdx : ℤ
  distance : ℚ
deriving DecidableEq

/-- The type `cv::Mat`: dimensions and the entries in row-major order. -/
structure Mat where
  rows : ℤ
  cols : ℤ
  data : List ℚ
deriving DecidableEq

/-- The test `Mat::empty()`. -/
def Mat.empty (m : Mat) : Bool := m.rows * m.cols == 0 || m.data.isEmpty

/-- The read `v[i]` of a `std::vector` with an `int` index; `none` outside the bounds. -/
def vecAt? {α : Type} (v : List α) (i : ℤ) : Option α :=
  if 0 ≤ i then v.get? i.toNat else none

/-! ## The OpenCV primitives -/

/-- What the file takes from outside itself: the library calls, as functions of their
    inputs, and the answer of the processor to a conversion that C++ leaves undefined.  A
    primitive that fills a `Mat` of known dimensions returns the entries alone. -/
structure Vision where
  /-- The call `cvtColor(src, dst, CV_RGBA2GRAY)`: the grey entries. -/
  cvtColor : Mat → List ℚ
  /-- The call `resize(src, dst, Size(cols, rows))`: the resized entries. -/
  resize : Mat → ℤ → ℤ → List ℚ
  /-- The call `GaussianBlur(src, dst, Size(3, 3), 0)`: the blurred entries. -/
  GaussianBlur : Mat → List ℚ
  /-- The call `m_briskDetector->detect(image, keypoints)`. -/
  detect : Mat → List KeyPoint
  /-- The call `m_briskDetector->compute(image, keypoints, descriptors)`: the keypoints
      it keeps and their descriptors. -/
  compute : Mat → List KeyPoint → List KeyPoint × Mat
  /-- The call `m_briskDetector->detectAndCompute(image, Mat(), keypoints, descriptors)`. -/
  detectAndCompute : Mat → List KeyPoint × Mat
  /-- The call `m_matcher->knnMatch(queryDescriptors, trainDescriptors, matches, 2)`. -/
  knnMatch : Mat → Mat → List (List DMatch)
  /-- The call `findHomography(points1, points2, RANSAC, RANSAC_THRESHOLD, mask)`: the
      matrix returned and the entries `mask.at<uchar>(r, 0)`, one per row of the mask. -/
  findHomography : List Point2f → List Point2f → Mat × List ℕ
  /-- The image of one point under `perspectiveTransform(src, dst, H)`. -/
  perspectivePoint : Mat → Point2f → Point2f
  /-- The rotation vector written by `solvePnP(obj, img, camera, dist, R, T, false, SOLVEPNP_EPNP)`. -/
  solvePnP : List Point3f → List Point2f → Mat → Mat → Mat
  /-- The entries of the 3×3 matrix written by `Rodrigues(R, rotMatrix)`. -/
  Rodrigues : Mat → List ℚ
  /-- The `int` that `(int) x` yields for a `float` whose integer part does not fit an
      `int`: undefined in C++, `INT_MIN` on x86, the nearest bound of `int` on ARM. -/
  convertOutOfRange : ℚ → ℤ

/-! ## The global state -/

/-- The global variables of the file.  `m_matcher` and `m_briskDetector` record
    whether the smart pointer is set; the objects themselves are the `Vision` functions.
    Every dereference of the two is in `initScan`, right after their creation, or behind
    the `m_initialized` test of `processImage`. -/
structure State where
  m_trainImages : List Mat
  m_trainImagesKeypoints : List (List KeyPoint)
  m_trainImagesDescriptors : List Mat
  m_imagePages : List ℤ
  m_trainImageNum : ℕ
  m_queryImageKeypoints : List KeyPoint
  m_queryImageDescriptors : Mat
  m_matcher : Bool
  m_briskDetector : Bool
  m_H : Mat
  m_predictedImage : ℤ
  m_predictionCount : ℤ
  m_initialized : Bool
deriving DecidableEq

/-- The values the globals have when the library is loaded. -/
def State.initial : State where
  m_trainImages := []
  m_trainImagesKeypoints := []
  m_trainImagesDescriptors := []
  m_imagePages := []
  m_trainImageNum := 0
  m_queryImageKeypoints := []
  m_queryImageDescriptors := ⟨0, 0, []⟩
  m_matcher := false
  m_briskDetector := false
  m_H := ⟨0, 0, []⟩
  m_predictedImage := -1
  m_predictionCount := TOTAL_PREDICTION_ATTEMPTS
  m_initialized := false

/-! ## Training registry -/

/-- The grey, resized image both `addImage` and `processImage` build from an RGBA
    buffer: `cvtColor`, then `resize` so that the short side is `required`. -/
def grayResized (V : Vision) (input : List ℚ) (width height required : ℤ) : Mat :=
  let newImage : Mat := ⟨height, width, input⟩
  let gray : Mat := ⟨height, width, V.cvtColor newImage⟩
  let smallSide : ℤ := if gray.cols > gray.rows then gray.rows else gray.cols
  let scaleFactor : ℚ := divF32 (intToF32 required) (intToF32 smallSide)
  let newCols : ℤ := truncToInt (mulF32 (intToF32 width) scaleFactor)
  let newRows : ℤ := truncToInt (mulF32 (intToF32 height) scaleFactor)
  ⟨newRows, newCols, V.resize gray newCols newRows⟩

/-- The function `addImage`.  `cvtColor` throws on an image without pixels. -/
def addImage (V : Vision) (s : State) (trainImageInput : List ℚ) (width height page : ℤ) :
    Option State :=
  if width ≤ 0 ∨ height ≤ 0 then none else
  let resized := grayResized V trainImageInput width height TRAIN_IMAGE_REQUIRED_SIZE
  let newImage : Mat := ⟨resized.rows, resized.cols, V.GaussianBlur resized⟩
  some { s with
    m_trainImages := s.m_trainImages ++ [newImage]
    m_imagePages := s.m_imagePages ++ [page]
    m_trainImageNum := s.m_trainImageNum + 1 }

/-- The region `KeypointReduction` of `initScan`. -/
def keypointReduction (currentImageKeypoints : List KeyPoint) : List KeyPoint :=
  if currentImageKeypoints.length > MIN_KEYPOINTS_FOR_REDUCTION then
    match currentImageKeypoints with
    | [] => []
    | k0 :: ks =>
      let max : ℚ := ks.foldl (fun m k => if m < k.response then k.response else m) k0.response
      currentImageKeypoints.filter fun k =>
        let response : ℤ := truncToInt k.response
        decide (mulF32 max MIN_RESPONSE_FACTOR < intToF32 response)
  else currentImageKeypoints

/-- The keypoints and descriptors `initScan` extracts from one training image. -/
def extractTraining (V : Vision) (image : Mat) : List KeyPoint × Mat :=
  V.compute image (keypointReduction (V.detect image))

/-- The loop of `initScan` over the indices still to visit. -/
def initScanLoop (V : Vision) : List ℕ → State → Option State
  | [], s => some s
  | i :: rest, s =>
    match vecAt? s.m_trainImages (i : ℤ) with
    | none => none
    | some image =>
      let e := extractTraining V image
      initScanLoop V rest { s with
        m_trainImagesKeypoints := s.m_trainImagesKeypoints ++ [e.1]
        m_trainImagesDescriptors := s.m_trainImagesDescriptors ++ [e.2] }

/-- The function `initScan`. -/
def initScan (V : Vision) (s : State) : Option State :=
  match initScanLoop V (List.range s.m_trainImageNum)
      { s with m_matcher := true, m_briskDetector := true } with
  | none => none
  | some s1 => some { s1 with m_initialized := true }

/-- The function `removeImages`. -/
def removeImages (s : State) : State :=
  { s with
    m_initialized := false
    m_imagePages := []
    m_trainImageNum := 0
    m_matcher := false
    m_briskDetector := false
    m_trainImages := []
    m_trainImagesKeypoints := []
    m_trainImagesDescriptors := []
    m_queryImageKeypoints := [] }

/-! ## Match filter and geometric verifier -/

/-- Filter 1 of `doMatching` with similarity factor `f`, over the rows of `tempMatches`.
    A row without an entry is read out of bounds. -/
def filter1 (f : ℚ) : List (List DMatch) → Option (List DMatch)
  | [] => some []
  | [] :: _ => none
  | [m] :: rest => (filter1 f rest).map fun good => m :: good
  | (m1 :: m2 :: _) :: rest =>
    let distance1 := m1.distance
    let distance2 := m2.distance
    if mulF32 distance2 f > distance1 then (filter1 f rest).map fun good => m1 :: good
    else filter1 f rest

/-- The call `std::sort(goodMatches.begin(), goodMatches.end())`: ascending distance.
    Matches of equal distance keep their order here; C++ leaves their order open. -/
def sortMatches (goodMatches : List DMatch) : List DMatch :=
  goodMatches.insertionSort fun a b => a.distance ≤ b.distance

/-- The loop of Filter 2: erase from the first match whose distance exceeds `minDistance`. -/
def eraseFromFirstExceeding (minDistance : ℚ) : List DMatch → List DMatch
  | [] => []
  | m :: rest =>
    if m.distance > minDistance then [] else m :: eraseFromFirstExceeding minDistance rest

/-- Filter 2 of `doMatching`. -/
def filter2 (goodMatches : List DMatch) : List DMatch :=
  match sortMatches goodMatches with
  | [] => []
  | m0 :: rest =>
    let minDistance := mulF32 m0.distance MIN_DISTANCE_FACTOR
    eraseFromFirstExceeding minDistance (m0 :: rest)

/-- The points `keypoints[index m].pt` over the matches, in order. -/
def matchedPoints (keypoints : List KeyPoint) (index : DMatch → ℤ) :
    List DMatch → Option (List Point2f)
  | [] => some []
  | m :: rest =>
    match vecAt? keypoints (index m) with
    | none => none
    | some k => (matchedPoints keypoints index rest).map fun pts => k.pt :: pts

/-- The value `inlierPercentage` computed from the mask of `findHomography`. -/
def inlierPercentage (mask : List ℕ) : ℚ :=
  let inliers : ℕ := (mask.filter fun v => v ≠ 0).length
  divF32 (intToF32 (inliers : ℤ)) (intToF32 (mask.length : ℤ))

/-- The function `doMatching`: the value returned and the globals afterwards. -/
def doMatching (V : Vision) (s : State) (imageIndex : ℤ) : Option (Bool × State) :=
  match vecAt? s.m_trainImagesDescriptors imageIndex with
  | none => none
  | some descriptors =>
    let tempMatches := V.knnMatch descriptors s.m_queryImageDescriptors
    match filter1 KNN_MATCHES_SIMILARITY_FACTOR tempMatches with
    | none => none
    | some goodMatches =>
      if goodMatches.length = 0 then some (false, s) else
      let goodMatches := filter2 goodMatches
      if goodMatches.length < REQUIRED_MATCHES then some (false, s) else
      match vecAt? s.m_trainImagesKeypoints imageIndex with
      | none => none
      | some keypoints =>
        match matchedPoints keypoints (fun m => m.queryIdx) goodMatches,
              matchedPoints s.m_queryImageKeypoints (fun m => m.trainIdx) goodMatches with
        | some points1, some points2 =>
          let r := V.findHomography points1 points2
          let Htemp := r.1
          let mask := r.2
          if !Htemp.empty then
            if inlierPercentage mask ≥ REQUIRED_INLIERS then some (true, { s with m_H := Htemp })
            else some (false, s)
          else some (false, s)
        | _, _ => none

/-! ## Pose reporter -/

/-- The function `getCameraMatrix`. -/
def getCameraMatrix (width height : ℤ) : Mat :=
  ⟨3, 3, [(width : ℚ), 0, (width : ℚ) / 2, 0, (width : ℚ), (height : ℚ) / 2, 0, 0, 1]⟩

/-- The function `getRot`. -/
def getRot (V : Vision) (imagePoints objectPoints : List Point2f) (width height : ℤ) : Mat :=
  let obj : List Point3f := objectPoints.map fun p => ⟨p.x, p.y, 0⟩
  let distCoef : Mat := ⟨4, 1, [0, 0, 0, 0]⟩
  let R := V.solvePnP obj imagePoints (getCameraMatrix width height) distCoef
  ⟨3, 3, V.Rodrigues R⟩

/-- Conversion `(int) x` of a `float` of any size: the fraction is dropped while the result
    fits an `int`; otherwise the value is the one the processor gives. -/
def floatToInt (V : Vision) (x : ℚ) : ℤ :=
  if INT_MIN ≤ truncToInt x ∧ truncToInt x ≤ INT_MAX then truncToInt x
  else V.convertOutOfRange x

/-- The statement `sum += c` with `int sum` and `float c`: the sum is formed in `float`
    and converted back to `int`. -/
def addToIntSum (V : Vision) (sum : ℤ) (c : ℚ) : ℤ := floatToInt V (addF32 (intToF32 sum) c)

/-- The corners `queryImageCorners` after the scaling loop of `processImage`. -/
def scaledCorners (queryImageCorners : List Point2f) (xScale yScale : ℚ) : List Point2f :=
  queryImageCorners.map fun p => ⟨mulF32 p.x xScale, mulF32 p.y yScale⟩

/-- The values `centerX` and `centerY` computed by the scaling loop of `processImage`;
    `/` on `int` drops the fraction. -/
def centerOfMass (V : Vision) (queryImageCorners : List Point2f) (xScale yScale : ℚ) :
    ℤ × ℤ :=
  let scaled := scaledCorners queryImageCorners xScale yScale
  let sumX : ℤ := scaled.foldl (fun sum p => addToIntSum V sum p.x) 0
  let sumY : ℤ := scaled.foldl (fun sum p => addToIntSum V sum p.y) 0
  (Int.tdiv sumX 4, Int.tdiv sumY 4)

/-- The corners of a training image, `trainImageCorners`. -/
def trainCorners (image : Mat) : List Point2f :=
  [⟨0, 0⟩, ⟨intToF32 image.cols, 0⟩, ⟨intToF32 image.cols, intToF32 image.rows⟩,
   ⟨0, intToF32 image.rows⟩]

/-- The variables the caller passes to `processImage` by reference or pointer. -/
structure Output where
  foundPage : ℤ
  centerX : ℤ
  centerY : ℤ
  rotData : List ℚ
deriving DecidableEq

/-- The block `if (foundImage != -1)` of `processImage`: the outputs it writes. -/
def reportPose (V : Vision) (s : State) (foundImage width height : ℤ) (webcamFrameGray : Mat)
    (out : Output) : Option Output :=
  match vecAt? s.m_trainImages foundImage, vecAt? s.m_imagePages foundImage with
  | some image, some page =>
    let trainImageCorners := trainCorners image
    let queryImageCorners := trainImageCorners.map (V.perspectivePoint s.m_H)
    let rotationMatrix :=
      getRot V queryImageCorners trainImageCorners webcamFrameGray.cols webcamFrameGray.rows
    let xScale := divF32 (intToF32 width) (intToF32 webcamFrameGray.cols)
    let yScale := divF32 (intToF32 height) (intToF32 webcamFrameGray.rows)
    let c := centerOfMass V queryImageCorners xScale yScale
    some { out with
      rotData := rotationMatrix.data.take 9
      centerX := c.1
      centerY := c.2
      foundPage := page }
  | _, _ => none

/-! ## The per-frame pipeline -/

/-- One call of `processImage`, with what the proofs observe of it. -/
structure Run where
  /-- The arguments of the calls of `doMatching` made, in call order. -/
  calls : List ℤ
  /-- The local `foundImage` when the call ends (`-1` before its declaration). -/
  foundImage : ℤ
  /-- The globals and the outputs when the call returns; `none` when it does not return
      (a vector read out of bounds, an OpenCV exception). -/
  result : Option (State × Output)
deriving DecidableEq

/-- The scan loop of `processImage` over the indices still to visit: the calls made,
    and `foundImage` with the globals when the loop ends. -/
def scanLoop (V : Vision) : List ℕ → State → List ℤ × Option (ℤ × State)
  | [], s => ([], some (-1, s))
  | i :: rest, s =>
    if (i : ℤ) = s.m_predictedImage then scanLoop V rest s
    else
      match doMatching V s (i : ℤ) with
      | none => ([(i : ℤ)], none)
      | some (true, s1) =>
        ([(i : ℤ)], some ((i : ℤ),
          { s1 with m_predictedImage := (i : ℤ), m_predictionCount := TOTAL_PREDICTION_ATTEMPTS }))
      | some (false, s1) =>
        let r := scanLoop V rest s1
        ((i : ℤ) :: r.1, r.2)

/-- The globals right after `detectAndCompute` in `processImage`. -/
def withQuery (V : Vision) (s : State) (queryImage : List ℚ) (width height : ℤ) : State :=
  let e := V.detectAndCompute (grayResized V queryImage width height QUERY_IMAGE_REQUIRED_SIZE)
  { s with m_queryImageKeypoints := e.1, m_queryImageDescriptors := e.2 }

/-- The block `if (m_predictedImage != -1)` of `processImage`: the calls made and, unless
    `doMatching` does not return, whether the block ends in `return`, the local
    `foundImage` and the globals after the block. -/
def lookForPredicted (V : Vision) (s : State) : List ℤ × Option (Bool × ℤ × State) :=
  if s.m_predictedImage ≠ -1 then
    match doMatching V s s.m_predictedImage with
    | none => ([s.m_predictedImage], none)
    | some (true, s1) =>
      ([s.m_predictedImage],
        some (false, s1.m_predictedImage,
          { s1 with m_predictionCount := TOTAL_PREDICTION_ATTEMPTS }))
    | some (false, s1) =>
      let s2 := { s1 with m_predictionCount := s1.m_predictionCount - 1 }
      let s3 := if s2.m_predictionCount = 0 then { s2 with m_predictedImage := -1 } else s2
      ([s.m_predictedImage], some (true, -1, s3))
  else ([], some (false, -1, s))

/-- The function `processImage`.  `cvtColor` throws on a frame without pixels. -/
def processImage (V : Vision) (s : State) (queryImage : List ℚ) (width height : ℤ)
    (out : Output) : Run :=
  let out := { out with foundPage := -1 }
  if !s.m_initialized then ⟨[], -1, some (s, out)⟩ else
  if width ≤ 0 ∨ height ≤ 0 then ⟨[], -1, none⟩ else
  let webcamFrameGray := grayResized V queryImage width height QUERY_IMAGE_REQUIRED_SIZE
  let s := withQuery V s queryImage width height
  if s.m_queryImageKeypoints.length = 0 ∨ s.m_queryImageDescriptors.cols = 0 then
    ⟨[], -1, some (s, out)⟩
  else
    -- Look for the predicted image first if there is one.
    match lookForPredicted V s with
    | (calls, none) => ⟨calls, -1, none⟩
    | (calls, some (true, _, s1)) => ⟨calls, -1, some (s1, out)⟩
    | (calls, some (false, foundImage, s1)) =>
      -- If the predicted image was not found, look for the other images.
      match (if foundImage = -1 then scanLoop V (List.range s1.m_trainImageNum) s1
             else ([], some (foundImage, s1))) with
      | (scanned, none) => ⟨calls ++ scanned, -1, none⟩
      | (scanned, some (foundImage, s2)) =>
        if foundImage ≠ -1 then
          ⟨calls ++ scanned, foundImage,
            (reportPose V s2 foundImage width height webcamFrameGray out).map fun o => (s2, o)⟩
        else ⟨calls ++ scanned, -1, some (s2, out)⟩

/-! ## Sequences of calls -/

/-- One frame handed to `processImage`: the buffer, its dimensions and the caller's
    output variables. -/
structure FrameIn where
  queryImage : List ℚ
  width : ℤ
  height : ℤ
  out : Output
deriving DecidableEq

/-- The call `processImage` on a frame. -/
def processFrame (V : Vision) (s : State) (f : FrameIn) : Run :=
  processImage V s f.queryImage f.width f.height f.out

/-- Whether `processImage` gets past its early returns on this frame, to the matching. -/
def reachesMatching (V : Vision) (s : State) (f : FrameIn) : Bool :=
  s.m_initialized && decide (0 < f.width) && decide (0 < f.height) &&
  decide ((withQuery V s f.queryImage f.width f.height).m_queryImageKeypoints.length ≠ 0) &&
  decide ((withQuery V s f.queryImage f.width f.height).m_queryImageDescriptors.cols ≠ 0)

/-- Consecutive calls of `processImage`: for each frame the globals before the call, the
    frame and the run; the sequence ends at a call that does not return. -/
def runFrames (V : Vision) : State → List FrameIn → List (State × FrameIn × Run)
  | _, [] => []
  | s, f :: fs =>
    let r := processFrame V s f
    (s, f, r) ::
      match r.result with
      | none => []
      | some (s1, _) => runFrames V s1 fs

/-- A call of one of the four exported functions. -/
inductive Call where
  | addImage (trainImageInput : List ℚ) (width height page : ℤ)
  | initScan
  | removeImages
  | processImage (f : FrameIn)
deriving DecidableEq

/-- The globals after one exported call; `none` when the call does not return. -/
def step (V : Vision) (s : State) : Call → Option State
  | .addImage input width height page => addImage V s input width height page
  | .initScan => initScan V s
  | .removeImages => some (removeImages s)
  | .processImage f => (processFrame V s f).result.map fun r => r.1

/-- The globals after a sequence of exported calls. -/
def runCalls (V : Vision) : State → List Call → Option State
  | s, [] => some s
  | s, c :: cs =>
    match step V s c with
    | none => none
    | some s1 => runCalls V s1 cs

/-- The states the library can be in: those a sequence of exported calls leads to from
    the initial values of the globals. -/
def Reachable (V : Vision) (s : State) : Prop :=
  ∃ cs : List Call, runCalls V State.initial cs = some s

/-! ## A small instance of the primitives

Images carry a tag as their only entry.  Every image with an entry has one keypoint, its
descriptor is the tag, and two descriptors match (four times, at distance 0) exactly when
the tags agree.  The homography found from four correspondences or more is the translation
by `(3/4, 3/4)` with every correspondence an inlier; from fewer, none is found. -/

/-- The keypoint of the small instance. -/
def toyKeyPoint : KeyPoint := ⟨⟨0, 0⟩, 1, 0, 1, 0, 0⟩

/-- The exact projective image of a point under a 3×3 matrix. -/
def projectExact (H : Mat) (p : Point2f) : Point2f :=
  match H.data with
  | [a, b, c, d, e, f, g, h, i] =>
    let w := g * p.x + h * p.y + i
    ⟨(a * p.x + b * p.y + c) / w, (d * p.x + e * p.y + f) / w⟩
  | _ => p

/-- The small instance of the primitives. -/
def toyVision : Vision where
  cvtColor := fun m => m.data
  resize := fun m _ _ => m.data
  GaussianBlur := fun m => m.data
  detect := fun _ => [toyKeyPoint]
  compute := fun m kps => (kps, ⟨1, 1, m.data⟩)
  detectAndCompute := fun m => (if m.data = [] then [] else [toyKeyPoint], ⟨1, 1, m.data⟩)
  knnMatch := fun q t => if q.data = t.data then List.replicate 4 [⟨0, 0, 0, 0⟩] else []
  findHomography := fun points1 points2 =>
    if points1.length < 4 ∨ points2.length ≠ points1.length then (⟨0, 0, []⟩, [])
    else (⟨3, 3, [1, 0, 3 / 4, 0, 1, 3 / 4, 0, 0, 1]⟩, List.replicate points1.length 1)
  perspectivePoint := projectExact
  solvePnP := fun _ _ _ _ => ⟨3, 1, [0, 0, 0]⟩
  Rodrigues := fun _ => [1, 0, 0, 0, 1, 0, 0, 0, 1]
  convertOutOfRange := fun _ => INT_MIN

/-- Output variables of a caller, all zero. -/
def out0 : Output := ⟨0, 0, 0, [0, 0, 0, 0, 0, 0, 0, 0, 0]⟩

/-- A 360×360 frame showing the image with the given tag. -/
def toyFrame (tag : ℚ) : FrameIn := ⟨[tag], 360, 360, out0⟩

/-- A 1800×900 frame showing the image with the given tag; it is resized to 720×360. -/
def toyWideFrame (tag : ℚ) : FrameIn := ⟨[tag], 1800, 900, out0⟩

/-- The small instance after a sequence of calls from the initial globals. -/
def toyAfter (cs : List Call) : State :=
  (runCalls toyVision State.initial cs).getD State.initial

/-- The calls that register 240×240 images with tags 1 and 2 (pages 7 and 8) and scan
    them. -/
def toySetup : List Call :=
  [.addImage [1] 240 240 7, .addImage [2] 240 240 8, .initScan]

/-- The caller's variables after a call that found nothing. -/
def outNone : Output := { out0 with foundPage := -1 }

/-- The small instance after image 1 was found and then `k` frames showed image 0. -/
def toyDecay (k : ℕ) : State :=
  toyAfter (toySetup ++ .processImage (toyFrame 2) :: List.replicate k (.processImage (toyFrame 1)))

/-! ## The centroid in words

What the specification says of the centroid (`roundedMean`) and what is proved of the code
instead (`truncatedCentre`), both said on the rational numbers with the floor and ceiling
functions, to be compared with `centerOfMass`, which is the code. -/

/-- The four corners of a training image, projected through `H` and rescaled from the
    resized frame (`resizedCols` × `resizedRows`) to the original frame (`width` × `height`),
    each axis by its own ratio of original to resized dimension; all values are `float`. -/
def rescaledProjectedCorners (V : Vision) (H image : Mat)
    (width height resizedCols resizedRows : ℤ) : List Point2f :=
  let xRatio : ℚ := roundF32 (roundF32 (width : ℚ) / roundF32 (resizedCols : ℚ))
  let yRatio : ℚ := roundF32 (roundF32 (height : ℚ) / roundF32 (resizedRows : ℚ))
  let right : ℚ := roundF32 (image.cols : ℚ)
  let bottom : ℚ := roundF32 (image.rows : ℚ)
  [V.perspectivePoint H ⟨0, 0⟩, V.perspectivePoint H ⟨right, 0⟩,
   V.perspectivePoint H ⟨right, bottom⟩, V.perspectivePoint H ⟨0, bottom⟩].map
    fun p => ⟨roundF32 (p.x * xRatio), roundF32 (p.y * yRatio)⟩

/-- The integer part of a rational: the fraction is dropped, toward zero. -/
def integerPart (q : ℚ) : ℤ := if 0 ≤ q then ⌊q⌋ else ⌈q⌉

/-- An integer total after a coordinate is added to it: the sum is rounded to a `float`
    and its integer part is taken. -/
def addCoordinate (total : ℤ) (c : ℚ) : ℤ :=
  integerPart (roundF32 (roundF32 (total : ℚ) + c))

/-- The truncated centre of coordinates: they are added one at a time to an integer total,
    starting from 0, and the integer part of a quarter of the total is taken. -/
def truncatedCentre (cs : List ℚ) : ℤ :=
  integerPart (((cs.foldl addCoordinate 0 : ℤ) : ℚ) / 4)

/-- The mean of coordinates, exactly. -/
def exactMean (cs : List ℚ) : ℚ := cs.sum / (cs.length : ℚ)

/-- The centre along one axis in the words of the specification: the mean of the
    coordinates rounded to the nearest integer. -/
def roundedMean (cs : List ℚ) : ℤ := round (exactMean cs)

/-! ## The tracker invariant, and `processImage` without the skip test -/

/-- The tracker invariant: the attempts counter is between 0 and
    `TOTAL_PREDICTION_ATTEMPTS`, and at least 1 while an image is predicted. -/
def TrackerInv (s : State) : Prop :=
  0 ≤ s.m_predictionCount ∧ s.m_predictionCount ≤ TOTAL_PREDICTION_ATTEMPTS ∧
  (s.m_predictedImage ≠ -1 → 1 ≤ s.m_predictionCount)


/-- The scan loop with the test `if (i == m_predictedImage) continue;` removed. -/
def scanLoopNoSkip (V : Vision) : List ℕ → State → List ℤ × Option (ℤ × State)
  | [], s => ([], some (-1, s))
  | i :: rest, s =>
    match doMatching V s (i : ℤ) with
    | none => ([(i : ℤ)], none)
    | some (true, s1) =>
      ([(i : ℤ)], some ((i : ℤ),
        { s1 with m_predictedImage := (i : ℤ), m_predictionCount := TOTAL_PREDICTION_ATTEMPTS }))
    | some (false, s1) =>
      let r := scanLoopNoSkip V rest s1
      ((i : ℤ) :: r.1, r.2)

/-- The function `processImage` with the scan loop replaced by `scanLoopNoSkip`. -/
def processImageNoSkip (V : Vision) (s : State) (queryImage : List ℚ) (width height : ℤ)
    (out : Output) : Run :=
  let out := { out with foundPage := -1 }
  if !s.m_initialized then ⟨[], -1, some (s, out)⟩ else
  if width ≤ 0 ∨ height ≤ 0 then ⟨[], -1, none⟩ else
  let webcamFrameGray := grayResized V queryImage width height QUERY_IMAGE_REQUIRED_SIZE
  let s := withQuery V s queryImage width height
  if s.m_queryImageKeypoints.length = 0 ∨ s.m_queryImageDescriptors.cols = 0 then
    ⟨[], -1, some (s, out)⟩
  else
    match lookForPredicted V s with
    | (calls, none) => ⟨calls, -1, none⟩
    | (calls, some (true, _, s1)) => ⟨calls, -1, some (s1, out)⟩
    | (calls, some (false, foundImage, s1)) =>
      match (if foundImage = -1 then scanLoopNoSkip V (List.range s1.m_trainImageNum) s1
             else ([], some (foundImage, s1))) with
      | (scanned, none) => ⟨calls ++ scanned, -1, none⟩
      | (scanned, some (foundImage, s2)) =>
        if foundImage ≠ -1 then
          ⟨calls ++ scanned, foundImage,
            (reportPose V s2 foundImage width height webcamFrameGray out).map fun o => (s2, o)⟩
        else ⟨calls ++ scanned, -1, some (s2, out)⟩


/-- The predicted image is `-1` or the index of a registered training image. -/
def PredictionInRange (s : State) : Prop :=
  s.m_predictedImage = -1 ∨ (0 ≤ s.m_predictedImage ∧ s.m_predictedImage < (s.m_trainImageNum : ℤ))


/-! ## Keypoints for the reduction -/

/-- A keypoint of the given response. -/
def toyKp (r : ℚ) : KeyPoint := ⟨⟨0, 0⟩, 1, 0, r, 0, 0⟩
/-- One keypoint of response 5 and 800 keypoints of response 3. -/
def toyKeypoints : List KeyPoint := toyKp 5 :: List.replicate 800 (toyKp 3)


/-! ## Theorems -/

/-! ### The `float` model -/

theorem roundEven_le (a : ℚ) : roundEven a ≤ ⌊a⌋ + 1 := by
  unfold roundEven; simp only; split_ifs <;> omega

theorem le_roundEven (a : ℚ) : ⌊a⌋ ≤ roundEven a := by
  unfold roundEven; simp only; split_ifs <;> omega

theorem roundEven_mono {a b : ℚ} (h : a ≤ b) : roundEven a ≤ roundEven b := by
  have hf : ⌊a⌋ ≤ ⌊b⌋ := Int.floor_mono h
  rcases hf.lt_or_eq with hlt | heq
  · have h1 := roundEven_le a
    have h2 := le_roundEven b
    omega
  · unfold roundEven
    simp only
    rw [heq]
    split_ifs <;> first | omega | (exfalso; linarith)

theorem roundEven_intCast (n : ℤ) : roundEven (n : ℚ) = n := by
  unfold roundEven
  simp

theorem log2Fuel_spec (fuel : ℕ) : ∀ n : ℕ, n ≤ fuel → 0 < n →
    2 ^ log2Fuel fuel n ≤ n ∧ n < 2 ^ (log2Fuel fuel n + 1) := by
  induction fuel with
  | zero => intro n h1 h2; omega
  | succ fuel ih =>
    intro n h1 h2
    unfold log2Fuel
    split_ifs with h
    · have : n = 1 := by omega
      subst this
      simp
    · obtain ⟨h3, h4⟩ := ih (n / 2) (by omega) (by omega)
      rw [pow_succ] at h4
      constructor
      · rw [pow_succ]; omega
      · rw [pow_succ, pow_succ]; omega

theorem natLog2_self_le {n : ℕ} (hn : n ≠ 0) : 2 ^ natLog2 n ≤ n :=
  (log2Fuel_spec n n (le_refl n) (by omega)).1

theorem lt_natLog2_self {n : ℕ} : n < 2 ^ (natLog2 n + 1) := by
  rcases Nat.eq_zero_or_pos n with h | h
  · subst h; positivity
  · exact (log2Fuel_spec n n (le_refl n) h).2

theorem floorLog2_spec {q : ℚ} (hq : 0 < q) :
    (2 : ℚ) ^ (floorLog2 q) ≤ q ∧ q < (2 : ℚ) ^ (floorLog2 q + 1) := by
  have hn : 0 < q.num := Rat.num_pos.mpr hq
  have hd : 0 < q.den := q.den_pos
  have habs : |q| = q := abs_of_pos hq
  set n := q.num.natAbs with hn_def
  set d := q.den with hd_def
  have hn0 : n ≠ 0 := by rw [hn_def]; omega
  have hd0 : d ≠ 0 := by omega
  have hqnd : q = (n : ℚ) / (d : ℚ) := by
    have h1 : (q.num : ℚ) = (n : ℚ) := by
      have : (q.num : ℤ) = (n : ℤ) := by rw [hn_def]; omega
      exact_mod_cast congrArg (fun z : ℤ => (z : ℚ)) this
    rw [← h1, hd_def]
    exact (Rat.num_div_den q).symm
  have hdq : (0 : ℚ) < d := by exact_mod_cast hd
  have h1 : ((2 : ℚ) ^ (natLog2 n : ℤ)) ≤ n := by
    have := natLog2_self_le hn0
    rw [zpow_natCast]
    exact_mod_cast this
  have h2 : (n : ℚ) < (2 : ℚ) ^ ((natLog2 n : ℤ) + 1) := by
    have := @lt_natLog2_self n
    have e : ((natLog2 n : ℤ) + 1) = ((natLog2 n + 1 : ℕ) : ℤ) := by push_cast; ring
    rw [e, zpow_natCast]
    exact_mod_cast this
  have h3 : ((2 : ℚ) ^ (natLog2 d : ℤ)) ≤ d := by
    have := natLog2_self_le hd0
    rw [zpow_natCast]
    exact_mod_cast this
  have h4 : (d : ℚ) < (2 : ℚ) ^ ((natLog2 d : ℤ) + 1) := by
    have := @lt_natLog2_self d
    have e : ((natLog2 d : ℤ) + 1) = ((natLog2 d + 1 : ℕ) : ℤ) := by push_cast; ring
    rw [e, zpow_natCast]
    exact_mod_cast this
  have two_pos : ∀ z : ℤ, (0 : ℚ) < (2 : ℚ) ^ z := fun z => zpow_pos (by norm_num) z
  have two_ne : (2 : ℚ) ≠ 0 := by norm_num
  unfold floorLog2
  simp only [habs]
  rw [← hn_def, ← hd_def]
  split_ifs with hc
  · refine ⟨hc, ?_⟩
    -- q < 2^(ln - ld + 1)
    rw [hqnd, div_lt_iff₀ hdq]
    have e : (2 : ℚ) ^ ((natLog2 n : ℤ) - (natLog2 d : ℤ) + 1) * (2 : ℚ) ^ (natLog2 d : ℤ)
        = (2 : ℚ) ^ ((natLog2 n : ℤ) + 1) := by
      rw [← zpow_add₀ two_ne]; congr 1; ring
    calc (n : ℚ) < (2 : ℚ) ^ ((natLog2 n : ℤ) + 1) := h2
      _ = (2 : ℚ) ^ ((natLog2 n : ℤ) - (natLog2 d : ℤ) + 1) * (2 : ℚ) ^ (natLog2 d : ℤ) := e.symm
      _ ≤ (2 : ℚ) ^ ((natLog2 n : ℤ) - (natLog2 d : ℤ) + 1) * d :=
          mul_le_mul_of_nonneg_left h3 (two_pos _).le
  · push_neg at hc
    refine ⟨?_, by simpa using hc⟩
    rw [hqnd, le_div_iff₀ hdq]
    have e : (2 : ℚ) ^ ((natLog2 n : ℤ) - (natLog2 d : ℤ) - 1) * (2 : ℚ) ^ ((natLog2 d : ℤ) + 1)
        = (2 : ℚ) ^ (natLog2 n : ℤ) := by
      rw [← zpow_add₀ two_ne]; congr 1; ring
    calc (2 : ℚ) ^ ((natLog2 n : ℤ) - (natLog2 d : ℤ) - 1) * d
        ≤ (2 : ℚ) ^ ((natLog2 n : ℤ) - (natLog2 d : ℤ) - 1) * (2 : ℚ) ^ ((natLog2 d : ℤ) + 1) :=
          mul_le_mul_of_nonneg_left h4.le (two_pos _).le
      _ = (2 : ℚ) ^ (natLog2 n : ℤ) := e
      _ ≤ n := h1

theorem floorLog2_mono {a b : ℚ} (ha : 0 < a) (hab : a ≤ b) : floorLog2 a ≤ floorLog2 b := by
  have h1 := (floorLog2_spec ha).1
  have h2 := (floorLog2_spec (lt_of_lt_of_le ha hab)).2
  have h3 : (2 : ℚ) ^ (floorLog2 a) < (2 : ℚ) ^ (floorLog2 b + 1) :=
    lt_of_le_of_lt (le_trans h1 hab) h2
  have := (zpow_lt_zpow_iff_right₀ (by norm_num : (1 : ℚ) < 2)).mp h3
  omega

theorem roundF32_nonneg {a : ℚ} (ha : 0 ≤ a) : 0 ≤ roundF32 a := by
  unfold roundF32
  split_ifs with h0
  · exact le_refl _
  · simp only
    have hu : (0 : ℚ) < (2 : ℚ) ^ (max (floorLog2 a) (-126) - 23) := zpow_pos (by norm_num) _
    have h1 : (0 : ℤ) ≤ ⌊a / (2 : ℚ) ^ (max (floorLog2 a) (-126) - 23)⌋ :=
      Int.floor_nonneg.mpr (div_nonneg ha hu.le)
    have h2 := le_roundEven (a / (2 : ℚ) ^ (max (floorLog2 a) (-126) - 23))
    have h3 : (0 : ℚ) ≤ (roundEven (a / (2 : ℚ) ^ (max (floorLog2 a) (-126) - 23)) : ℚ) := by
      exact_mod_cast le_trans h1 h2
    exact mul_nonneg h3 hu.le

theorem roundF32_mono_pos {a b : ℚ} (ha : 0 < a) (hab : a ≤ b) : roundF32 a ≤ roundF32 b := by
  have hb : 0 < b := lt_of_lt_of_le ha hab
  have two_ne : (2 : ℚ) ≠ 0 := by norm_num
  have one_lt : (1 : ℚ) < 2 := by norm_num
  unfold roundF32
  rw [if_neg ha.ne', if_neg hb.ne']
  simp only
  set ea := max (floorLog2 a) (-126) with hea
  set eb := max (floorLog2 b) (-126) with heb
  have hle : ea ≤ eb := max_le_max (floorLog2_mono ha hab) (le_refl _)
  have hua : (0 : ℚ) < (2 : ℚ) ^ (ea - 23) := zpow_pos (by norm_num) _
  have hub : (0 : ℚ) < (2 : ℚ) ^ (eb - 23) := zpow_pos (by norm_num) _
  rcases hle.lt_or_eq with hlt | heq
  · -- different binades: the larger power of two separates the results
    have hfb : floorLog2 b = eb := by
      have : -126 < eb := lt_of_le_of_lt (le_max_right _ _) hlt
      rw [heb] at this ⊢
      rcases le_total (floorLog2 b) (-126) with h | h
      · rw [max_eq_right h] at this; omega
      · exact (max_eq_left h).symm
    -- a / ulp_a < 2^24
    have ha2 : a < (2 : ℚ) ^ (ea + 1) :=
      lt_of_lt_of_le (floorLog2_spec ha).2
        (zpow_le_zpow_right₀ one_lt.le (by have := le_max_left (floorLog2 a) (-126); omega))
    have h24 : a / (2 : ℚ) ^ (ea - 23) ≤ (((2 : ℤ) ^ 24 : ℤ) : ℚ) := by
      rw [div_le_iff₀ hua]
      have e : ((((2 : ℤ) ^ 24 : ℤ) : ℚ)) * (2 : ℚ) ^ (ea - 23) = (2 : ℚ) ^ (ea + 1) := by
        have : ((((2 : ℤ) ^ 24 : ℤ) : ℚ)) = (2 : ℚ) ^ (24 : ℤ) := by norm_num
        rw [this, ← zpow_add₀ two_ne]; congr 1; ring
      rw [e]; exact ha2.le
    have hra : roundEven (a / (2 : ℚ) ^ (ea - 23)) ≤ (2 : ℤ) ^ 24 := by
      have := roundEven_mono h24
      rwa [roundEven_intCast] at this
    have h23 : (((2 : ℤ) ^ 23 : ℤ) : ℚ) ≤ b / (2 : ℚ) ^ (eb - 23) := by
      rw [le_div_iff₀ hub]
      have e : ((((2 : ℤ) ^ 23 : ℤ) : ℚ)) * (2 : ℚ) ^ (eb - 23) = (2 : ℚ) ^ eb := by
        have : ((((2 : ℤ) ^ 23 : ℤ) : ℚ)) = (2 : ℚ) ^ (23 : ℤ) := by norm_num
        rw [this, ← zpow_add₀ two_ne]; congr 1; ring
      rw [e, ← hfb]; exact (floorLog2_spec hb).1
    have hrb : (2 : ℤ) ^ 23 ≤ roundEven (b / (2 : ℚ) ^ (eb - 23)) := by
      have := roundEven_mono h23
      rwa [roundEven_intCast] at this
    have hA : (roundEven (a / (2 : ℚ) ^ (ea - 23)) : ℚ) * (2 : ℚ) ^ (ea - 23) ≤ (2 : ℚ) ^ (ea + 1) := by
      have e : (2 : ℚ) ^ (ea + 1) = (((2 : ℤ) ^ 24 : ℤ) : ℚ) * (2 : ℚ) ^ (ea - 23) := by
        have : ((((2 : ℤ) ^ 24 : ℤ) : ℚ)) = (2 : ℚ) ^ (24 : ℤ) := by norm_num
        rw [this, ← zpow_add₀ two_ne]; congr 1; ring
      rw [e]
      exact mul_le_mul_of_nonneg_right (by exact_mod_cast hra) hua.le
    have hB : (2 : ℚ) ^ eb ≤ (roundEven (b / (2 : ℚ) ^ (eb - 23)) : ℚ) * (2 : ℚ) ^ (eb - 23) := by
      have e : (2 : ℚ) ^ eb = (((2 : ℤ) ^ 23 : ℤ) : ℚ) * (2 : ℚ) ^ (eb - 23) := by
        have : ((((2 : ℤ) ^ 23 : ℤ) : ℚ)) = (2 : ℚ) ^ (23 : ℤ) := by norm_num
        rw [this, ← zpow_add₀ two_ne]; congr 1; ring
      rw [e]
      exact mul_le_mul_of_nonneg_right (by exact_mod_cast hrb) hub.le
    have hM : (2 : ℚ) ^ (ea + 1) ≤ (2 : ℚ) ^ eb := zpow_le_zpow_right₀ one_lt.le (by omega)
    exact le_trans hA (le_trans hM hB)
  · rw [← heq]
    have : a / (2 : ℚ) ^ (ea - 23) ≤ b / (2 : ℚ) ^ (ea - 23) :=
      div_le_div_of_nonneg_right hab hua.le
    have := roundEven_mono this
    exact mul_le_mul_of_nonneg_right (by exact_mod_cast this) hua.le

theorem roundF32_mono_nonneg {a b : ℚ} (ha : 0 ≤ a) (hab : a ≤ b) : roundF32 a ≤ roundF32 b := by
  rcases ha.lt_or_eq with h | h
  · exact roundF32_mono_pos h hab
  · subst h
    have : roundF32 0 = 0 := by simp [roundF32]
    rw [this]
    exact roundF32_nonneg hab

theorem roundF32_natCast_small (n : ℕ) (hn : n < 2 ^ 24) : roundF32 (n : ℚ) = n := by
  rcases Nat.eq_zero_or_pos n with h0 | hpos
  · subst h0; simp [roundF32]
  have hq : (0 : ℚ) < (n : ℚ) := by exact_mod_cast hpos
  have two_ne : (2 : ℚ) ≠ 0 := by norm_num
  have one_lt : (1 : ℚ) < 2 := by norm_num
  obtain ⟨h1, h2⟩ := floorLog2_spec hq
  -- 0 ≤ e ≤ 23
  have he0 : 0 ≤ floorLog2 (n : ℚ) := by
    by_contra hneg
    push_neg at hneg
    have : (n : ℚ) < (2 : ℚ) ^ (0 : ℤ) :=
      lt_of_lt_of_le h2 (zpow_le_zpow_right₀ one_lt.le (by omega))
    have h1n : (1 : ℚ) ≤ (n : ℚ) := by exact_mod_cast hpos
    simp at this
    linarith
  have he23 : floorLog2 (n : ℚ) ≤ 23 := by
    by_contra hbig
    push_neg at hbig
    have : (2 : ℚ) ^ (24 : ℤ) ≤ (n : ℚ) :=
      le_trans (zpow_le_zpow_right₀ one_lt.le (by omega)) h1
    have hn' : (n : ℚ) < (2 : ℚ) ^ (24 : ℤ) := by
      have : ((2 : ℚ) ^ (24 : ℤ)) = ((2 ^ 24 : ℕ) : ℚ) := by norm_num
      rw [this]; exact_mod_cast hn
    linarith
  unfold roundF32
  rw [if_neg hq.ne']
  simp only
  rw [max_eq_left (by omega)]
  obtain ⟨k, hk⟩ : ∃ k : ℕ, (23 - floorLog2 (n : ℚ)) = (k : ℤ) := ⟨(23 - floorLog2 (n : ℚ)).toNat, by omega⟩
  have hpow : (2 : ℚ) ^ (floorLog2 (n : ℚ) - 23) = ((2 : ℚ) ^ k)⁻¹ := by
    have : floorLog2 (n : ℚ) - 23 = -(k : ℤ) := by omega
    rw [this, zpow_neg, zpow_natCast]
  rw [hpow]
  have hdiv : (n : ℚ) / ((2 : ℚ) ^ k)⁻¹ = (((n * 2 ^ k : ℕ) : ℤ) : ℚ) := by
    rw [div_inv_eq_mul]; push_cast; ring
  rw [hdiv, roundEven_intCast]
  push_cast
  field_simp

/-! ### The verifier and the frame pipeline -/

theorem doMatching_cases (V : Vision) (s s1 : State) (i : ℤ) (b : Bool)
    (h : doMatching V s i = some (b, s1)) :
    (b = false ∧ s1 = s) ∨
    (b = true ∧ ∃ points1 points2, s1 = { s with m_H := (V.findHomography points1 points2).1 }) := by
  unfold doMatching at h
  cases hd : vecAt? s.m_trainImagesDescriptors i with
  | none => simp [hd] at h
  | some d =>
    simp only [hd] at h
    cases hf : filter1 KNN_MATCHES_SIMILARITY_FACTOR (V.knnMatch d s.m_queryImageDescriptors) with
    | none => simp [hf] at h
    | some good =>
      simp only [hf] at h
      split_ifs at h with h1 h2
      · simp at h; exact Or.inl ⟨h.1, h.2.symm⟩
      · simp at h; exact Or.inl ⟨h.1, h.2.symm⟩
      · cases hk : vecAt? s.m_trainImagesKeypoints i with
        | none => simp [hk] at h
        | some kps =>
          simp only [hk] at h
          split at h
          · split_ifs at h with h3 h4
            · simp at h; exact Or.inr ⟨h.1, _, _, h.2.symm⟩
            · simp at h; exact Or.inl ⟨h.1, h.2.symm⟩
            · simp at h; exact Or.inl ⟨h.1, h.2.symm⟩
          · simp at h

theorem doMatching_false (V : Vision) (s s1 : State) (i : ℤ)
    (h : doMatching V s i = some (false, s1)) : s1 = s := by
  rcases doMatching_cases V s s1 i false h with h1 | h1
  · exact h1.2
  · simp at h1

theorem doMatching_true (V : Vision) (s s1 : State) (i : ℤ)
    (h : doMatching V s i = some (true, s1)) :
    ∃ points1 points2, s1 = { s with m_H := (V.findHomography points1 points2).1 } := by
  rcases doMatching_cases V s s1 i true h with h1 | h1
  · simp at h1
  · exact h1.2

theorem scanLoop_found (V : Vision) (is : List ℕ) (s s1 : State) (calls : List ℤ) (fi : ℤ)
    (h : scanLoop V is s = (calls, some (fi, s1))) (hfi : fi ≠ -1) :
    calls.getLast? = some fi ∧
    ∃ points1 points2,
      doMatching V s fi = some (true, { s with m_H := (V.findHomography points1 points2).1 }) ∧
      s1 = { s with m_H := (V.findHomography points1 points2).1, m_predictedImage := fi,
                    m_predictionCount := TOTAL_PREDICTION_ATTEMPTS } := by
  induction is generalizing calls with
  | nil => simp [scanLoop] at h; omega
  | cons i rest ih =>
    unfold scanLoop at h
    split at h
    · exact ih calls h
    · split at h
      · simp at h
      · rename_i s2 hd
        simp at h
        obtain ⟨hc, hf, hs⟩ := h
        obtain ⟨p1, p2, hH⟩ := doMatching_true V s s2 i hd
        subst hf hc
        refine ⟨by simp, p1, p2, ?_, ?_⟩
        · rw [hd, hH]
        · rw [← hs, hH]
      · rename_i s2 hd
        have := doMatching_false V s s2 i hd
        subst this
        simp at h
        obtain ⟨hc, hr⟩ := h
        have hh : scanLoop V rest s2 = ((scanLoop V rest s2).1, some (fi, s1)) := by
          rw [← hr]
        obtain ⟨h1, h2⟩ := ih _ hh
        refine ⟨?_, h2⟩
        rw [← hc]
        cases hl : (scanLoop V rest s2).1 with
        | nil => rw [hl] at h1; simp at h1
        | cons a l => rw [hl] at h1; simpa [List.getLast?_cons_cons] using h1

theorem scanLoop_none_found (V : Vision) (is : List ℕ) (s s1 : State) (calls : List ℤ)
    (h : scanLoop V is s = (calls, some (-1, s1))) (hp : s.m_predictedImage = -1) :
    calls = is.map (fun i : ℕ => (i : ℤ)) ∧ s1 = s := by
  induction is generalizing calls with
  | nil => simp [scanLoop] at h; simp [h]
  | cons i rest ih =>
    unfold scanLoop at h
    split at h
    · rename_i hi
      rw [hp] at hi
      omega
    · split at h
      · simp at h
      · simp at h
      · rename_i s2 hd
        have := doMatching_false V s s2 i hd
        subst this
        simp at h
        obtain ⟨hc, hr⟩ := h
        have hh : scanLoop V rest s2 = ((scanLoop V rest s2).1, some (-1, s1)) := by
          rw [← hr]
        obtain ⟨h1, h2⟩ := ih _ hh
        refine ⟨?_, h2⟩
        rw [← hc, h1]
        simp


theorem processFrame_not_reaching (V : Vision) (s : State) (f : FrameIn)
    (h : reachesMatching V s f = false) :
    (processFrame V s f).calls = [] ∧ (processFrame V s f).foundImage = -1 ∧
    ∀ s1 o1, (processFrame V s f).result = some (s1, o1) →
      s1.m_predictedImage = s.m_predictedImage ∧ s1.m_predictionCount = s.m_predictionCount ∧
      o1 = { f.out with foundPage := -1 } := by
  unfold processFrame processImage
  by_cases hi : s.m_initialized = true
  · by_cases hd : f.width ≤ 0 ∨ f.height ≤ 0
    · simp [hi, hd]
    · have hd2 : 0 < f.width ∧ 0 < f.height := by omega
      by_cases hq : (withQuery V s f.queryImage f.width f.height).m_queryImageKeypoints.length = 0 ∨
          (withQuery V s f.queryImage f.width f.height).m_queryImageDescriptors.cols = 0
      · simp only [hi, hd, hq]
        simp
        exact ⟨rfl, rfl⟩
      · exfalso
        simp [reachesMatching, hi, hd2] at h
        simp at hq
        exact hq.2 (h hq.1)
  · simp at hi
    simp [hi]

theorem processFrame_predicted (V : Vision) (s : State) (f : FrameIn)
    (h : reachesMatching V s f = true) (hp : s.m_predictedImage ≠ -1) :
    processFrame V s f =
      match doMatching V (withQuery V s f.queryImage f.width f.height) s.m_predictedImage with
      | none => ⟨[s.m_predictedImage], -1, none⟩
      | some (true, s1) =>
        ⟨[s.m_predictedImage], s1.m_predictedImage,
          (reportPose V { s1 with m_predictionCount := TOTAL_PREDICTION_ATTEMPTS }
              s1.m_predictedImage f.width f.height
              (grayResized V f.queryImage f.width f.height QUERY_IMAGE_REQUIRED_SIZE)
              { f.out with foundPage := -1 }).map
            fun o => ({ s1 with m_predictionCount := TOTAL_PREDICTION_ATTEMPTS }, o)⟩
      | some (false, s1) =>
        ⟨[s.m_predictedImage], -1,
          some (if s1.m_predictionCount - 1 = 0
                then { s1 with m_predictionCount := s1.m_predictionCount - 1,
                               m_predictedImage := -1 }
                else { s1 with m_predictionCount := s1.m_predictionCount - 1 },
                { f.out with foundPage := -1 })⟩ := by
  simp only [reachesMatching, Bool.and_eq_true, decide_eq_true_eq] at h
  obtain ⟨⟨⟨⟨hi, hw⟩, hh⟩, hk⟩, hc⟩ := h
  have hd : ¬ (f.width ≤ 0 ∨ f.height ≤ 0) := by omega
  have hq : ¬ ((withQuery V s f.queryImage f.width f.height).m_queryImageKeypoints.length = 0 ∨
      (withQuery V s f.queryImage f.width f.height).m_queryImageDescriptors.cols = 0) := by
    simp [hk, hc]
  have hp2 : (withQuery V s f.queryImage f.width f.height).m_predictedImage ≠ -1 := hp
  have hp3 : (withQuery V s f.queryImage f.width f.height).m_predictedImage = s.m_predictedImage := rfl
  unfold processFrame processImage
  simp only [hi, hd, hq, Bool.not_true, Bool.false_eq_true, if_false, lookForPredicted, hp3,
    if_pos hp]
  rcases hm : doMatching V (withQuery V s f.queryImage f.width f.height) s.m_predictedImage
    with _ | ⟨_ | _, s1⟩
  · rfl
  · rfl
  · obtain ⟨p1, p2, hH⟩ := doMatching_true V _ _ _ hm
    have hs1 : s1.m_predictedImage = s.m_predictedImage := by rw [hH]; rfl
    have hne : ¬ s1.m_predictedImage = -1 := by rw [hs1]; exact hp
    simp only [if_neg hne, List.append_nil, ne_eq]
    rw [if_pos hne]

theorem processFrame_scan (V : Vision) (s : State) (f : FrameIn)
    (h : reachesMatching V s f = true) (hp : s.m_predictedImage = -1) :
    processFrame V s f =
      match scanLoop V (List.range s.m_trainImageNum)
          (withQuery V s f.queryImage f.width f.height) with
      | (calls, none) => ⟨calls, -1, none⟩
      | (calls, some (foundImage, s1)) =>
        if foundImage ≠ -1 then
          ⟨calls, foundImage,
            (reportPose V s1 foundImage f.width f.height
              (grayResized V f.queryImage f.width f.height QUERY_IMAGE_REQUIRED_SIZE)
              { f.out with foundPage := -1 }).map fun o => (s1, o)⟩
        else ⟨calls, -1, some (s1, { f.out with foundPage := -1 })⟩ := by
  simp only [reachesMatching, Bool.and_eq_true, decide_eq_true_eq] at h
  obtain ⟨⟨⟨⟨hi, hw⟩, hh⟩, hk⟩, hc⟩ := h
  have hd : ¬ (f.width ≤ 0 ∨ f.height ≤ 0) := by omega
  have hq : ¬ ((withQuery V s f.queryImage f.width f.height).m_queryImageKeypoints.length = 0 ∨
      (withQuery V s f.queryImage f.width f.height).m_queryImageDescriptors.cols = 0) := by
    simp [hk, hc]
  have hp2 : ¬ s.m_predictedImage ≠ -1 := by simp [hp]
  have hp3 : (withQuery V s f.queryImage f.width f.height).m_predictedImage = s.m_predictedImage := rfl
  have hn3 : (withQuery V s f.queryImage f.width f.height).m_trainImageNum = s.m_trainImageNum := rfl
  unfold processFrame processImage
  simp only [hi, hd, hq, Bool.not_true, Bool.false_eq_true, if_false, lookForPredicted, hp3,
    if_neg hp2, if_true, List.nil_append, hn3]

theorem reportPose_congr (V : Vision) (s s1 : State) (i w h : ℤ) (g : Mat) (o : Output)
    (h1 : s1.m_trainImages = s.m_trainImages) (h2 : s1.m_imagePages = s.m_imagePages)
    (h3 : s1.m_H = s.m_H) : reportPose V s1 i w h g o = reportPose V s i w h g o := by
  unfold reportPose
  rw [h1, h2, h3]

theorem processFrame_accept_state (V : Vision) (s sN : State) (f : FrameIn) (oN : Output) (p : ℤ)
    (hf : (processFrame V s f).foundImage = p) (hp : p ≠ -1)
    (hr : (processFrame V s f).result = some (sN, oN)) :
    sN.m_predictedImage = p ∧ sN.m_predictionCount = TOTAL_PREDICTION_ATTEMPTS := by
  cases hm : reachesMatching V s f with
  | false =>
    have := (processFrame_not_reaching V s f hm).2.1
    rw [this] at hf
    exact absurd hf.symm hp
  | true =>
    by_cases hq : s.m_predictedImage = -1
    · rw [processFrame_scan V s f hm hq] at hf hr
      rcases hs : scanLoop V (List.range s.m_trainImageNum)
          (withQuery V s f.queryImage f.width f.height) with ⟨calls, _ | ⟨fi, s1⟩⟩
      · simp [hs] at hr
      · simp only [hs] at hf hr
        by_cases hfi : fi ≠ -1
        · simp only [if_pos hfi] at hf hr
          obtain ⟨_, _, _, _, h3⟩ := scanLoop_found V _ _ _ _ _ hs hfi
          simp only [Option.map_eq_some', Prod.mk.injEq] at hr
          obtain ⟨o, _, h4, _⟩ := hr
          subst h4 h3 hf
          exact ⟨rfl, rfl⟩
        · simp only [if_neg hfi] at hf
          exact absurd hf.symm hp
    · rw [processFrame_predicted V s f hm hq] at hf hr
      rcases hd : doMatching V (withQuery V s f.queryImage f.width f.height) s.m_predictedImage
        with _ | ⟨_ | _, s1⟩
      · simp [hd] at hr
      · simp only [hd] at hf
        exact absurd hf.symm hp
      · simp only [hd] at hf hr
        simp only [Option.map_eq_some', Prod.mk.injEq] at hr
        obtain ⟨o, _, h4, _⟩ := hr
        subst h4
        exact ⟨hf, rfl⟩

theorem predicting_frame (V : Vision) (s : State) (f : FrameIn) (p : ℤ) (k : ℕ)
    (hp : s.m_predictedImage = p) (hp1 : p ≠ -1)
    (hc : (k : ℤ) + 1 < s.m_predictionCount) (hk : (k : ℤ) + 1 < TOTAL_PREDICTION_ATTEMPTS) :
    ((processFrame V s f).calls = [p] ∨
      ((processFrame V s f).calls = [] ∧ reachesMatching V s f = false)) ∧
    ∀ s1 o1, (processFrame V s f).result = some (s1, o1) →
      s1.m_predictedImage = p ∧ (k : ℤ) < s1.m_predictionCount := by
  cases hm : reachesMatching V s f with
  | false =>
    obtain ⟨h1, _, h3⟩ := processFrame_not_reaching V s f hm
    refine ⟨Or.inr ⟨h1, rfl⟩, fun s1 o1 hr => ?_⟩
    obtain ⟨h4, h5, _⟩ := h3 s1 o1 hr
    rw [h4, h5]
    exact ⟨hp, by omega⟩
  | true =>
    have hq : s.m_predictedImage ≠ -1 := by rw [hp]; exact hp1
    rw [processFrame_predicted V s f hm hq]
    rcases hd : doMatching V (withQuery V s f.queryImage f.width f.height) s.m_predictedImage
      with _ | ⟨_ | _, s1⟩
    · simp [hp]
    · have := doMatching_false V _ _ _ hd
      subst this
      have h0 : ¬ ((withQuery V s f.queryImage f.width f.height).m_predictionCount - 1 = 0) := by
        have : (withQuery V s f.queryImage f.width f.height).m_predictionCount
            = s.m_predictionCount := rfl
        omega
      simp only [if_neg h0, hp, true_or, true_and]
      intro s1 o1 hr
      simp only [Option.some.injEq, Prod.mk.injEq] at hr
      obtain ⟨hr, _⟩ := hr
      subst hr
      refine ⟨hp, ?_⟩
      show (k : ℤ) < s.m_predictionCount - 1
      omega
    · obtain ⟨p1, p2, hH⟩ := doMatching_true V _ _ _ hd
      subst hH
      simp only [hp, true_or, true_and]
      intro s1 o1 hr
      simp only [Option.map_eq_some', Prod.mk.injEq] at hr
      obtain ⟨o, _, h4, _⟩ := hr
      subst h4
      refine ⟨hp, ?_⟩
      show (k : ℤ) < TOTAL_PREDICTION_ATTEMPTS
      omega

theorem predicting_frames (V : Vision) (p : ℤ) (hp1 : p ≠ -1) (fs : List FrameIn) :
    ∀ s : State, s.m_predictedImage = p → (fs.length : ℤ) < s.m_predictionCount →
      (fs.length : ℤ) < TOTAL_PREDICTION_ATTEMPTS →
      ∀ e ∈ runFrames V s fs,
        e.2.2.calls = [p] ∨ (e.2.2.calls = [] ∧ reachesMatching V e.1 e.2.1 = false) := by
  induction fs with
  | nil => intro s _ _ _ e he; simp [runFrames] at he
  | cons f rest ih =>
    intro s hp hc hk e he
    simp only [List.length_cons, Nat.cast_add, Nat.cast_one] at hc hk
    obtain ⟨h1, h2⟩ := predicting_frame V s f p rest.length hp hp1 hc hk
    simp only [runFrames, List.mem_cons] at he
    rcases he with he | he
    · subst he
      exact h1
    · cases hr : (processFrame V s f).result with
      | none => simp [hr] at he
      | some x =>
        obtain ⟨s1, o1⟩ := x
        simp only [hr] at he
        obtain ⟨h3, h4⟩ := h2 s1 o1 hr
        exact ih s1 h3 h4 (by omega) e he


theorem processFrame_found (V : Vision) (s s1 : State) (f : FrameIn) (o1 : Output)
    (hr : (processFrame V s f).result = some (s1, o1))
    (hf : (processFrame V s f).foundImage ≠ -1) :
    ∃ points1 points2,
      doMatching V (withQuery V s f.queryImage f.width f.height) (processFrame V s f).foundImage
        = some (true, { withQuery V s f.queryImage f.width f.height with
                        m_H := (V.findHomography points1 points2).1 }) ∧
      (processFrame V s f).calls.getLast? = some (processFrame V s f).foundImage ∧
      s1.m_H = (V.findHomography points1 points2).1 ∧
      s1.m_trainImages = s.m_trainImages ∧ s1.m_imagePages = s.m_imagePages ∧
      reportPose V s1 (processFrame V s f).foundImage f.width f.height
        (grayResized V f.queryImage f.width f.height QUERY_IMAGE_REQUIRED_SIZE)
        { f.out with foundPage := -1 } = some o1 := by
  cases hm : reachesMatching V s f with
  | false =>
    exact absurd (processFrame_not_reaching V s f hm).2.1 hf
  | true =>
    by_cases hq : s.m_predictedImage = -1
    · rw [processFrame_scan V s f hm hq] at hf hr ⊢
      rcases hs : scanLoop V (List.range s.m_trainImageNum)
          (withQuery V s f.queryImage f.width f.height) with ⟨calls, _ | ⟨fi, s2⟩⟩
      · simp [hs] at hr
      · simp only [hs] at hf hr ⊢
        by_cases hfi : fi ≠ -1
        · simp only [if_pos hfi] at hf hr ⊢
          obtain ⟨hl, p1, p2, hd, h3⟩ := scanLoop_found V _ _ _ _ _ hs hfi
          simp only [Option.map_eq_some', Prod.mk.injEq] at hr
          obtain ⟨o, ho, h4, h5⟩ := hr
          subst h4 h5
          refine ⟨p1, p2, hd, hl, ?_, ?_, ?_, ho⟩
          · rw [h3]
          · rw [h3]; rfl
          · rw [h3]; rfl
        · simp only [if_neg hfi] at hf
          exact absurd rfl hf
    · rw [processFrame_predicted V s f hm hq] at hf hr ⊢
      rcases hd : doMatching V (withQuery V s f.queryImage f.width f.height) s.m_predictedImage
        with _ | ⟨_ | _, s2⟩
      · simp [hd] at hr
      · simp only [hd] at hf
        exact absurd rfl hf
      · simp only [hd] at hf hr ⊢
        obtain ⟨p1, p2, hH⟩ := doMatching_true V _ _ _ hd
        simp only [Option.map_eq_some', Prod.mk.injEq] at hr
        obtain ⟨o, ho, h4, h5⟩ := hr
        subst h4 h5
        have hpi : s2.m_predictedImage = s.m_predictedImage := by rw [hH]; rfl
        refine ⟨p1, p2, ?_, ?_, ?_, ?_, ?_, ho⟩
        · rw [hpi, hd, hH]
        · rw [hpi]; rfl
        · rw [hH]
        · rw [hH]; rfl
        · rw [hH]; rfl

theorem processFrame_rejected (V : Vision) (s s1 : State) (f : FrameIn) (o1 : Output) (p : ℤ)
    (hp : s.m_predictedImage = p) (hp1 : p ≠ -1)
    (h : processFrame V s f = ⟨[p], -1, some (s1, o1)⟩) :
    s1.m_predictedImage = (if s.m_predictionCount - 1 = 0 then -1 else p) ∧
    s1.m_predictionCount = s.m_predictionCount - 1 := by
  cases hm : reachesMatching V s f with
  | false =>
    have := (processFrame_not_reaching V s f hm).1
    rw [h] at this
    simp at this
  | true =>
    have hq : s.m_predictedImage ≠ -1 := by rw [hp]; exact hp1
    rw [processFrame_predicted V s f hm hq] at h
    rcases hd : doMatching V (withQuery V s f.queryImage f.width f.height) s.m_predictedImage
      with _ | ⟨_ | _, s2⟩
    · simp [hd] at h
    · have := doMatching_false V _ _ _ hd
      subst this
      simp only [hd, Run.mk.injEq, Option.some.injEq, Prod.mk.injEq] at h
      obtain ⟨_, _, h3, _⟩ := h
      rw [← h3]
      have hcnt : (withQuery V s f.queryImage f.width f.height).m_predictionCount
          = s.m_predictionCount := rfl
      rw [hcnt]
      split_ifs with h0
      · exact ⟨rfl, rfl⟩
      · exact ⟨hp, rfl⟩
    · obtain ⟨p1, p2, hH⟩ := doMatching_true V _ _ _ hd
      simp only [hd, Run.mk.injEq] at h
      obtain ⟨_, h2, _⟩ := h
      rw [hH] at h2
      exact absurd (hp.symm.trans h2) hp1

theorem processFrame_none_found (V : Vision) (s s1 : State) (f : FrameIn) (o1 : Output)
    (hr : (processFrame V s f).result = some (s1, o1))
    (hf : (processFrame V s f).foundImage = -1) : o1 = { f.out with foundPage := -1 } := by
  cases hm : reachesMatching V s f with
  | false => exact ((processFrame_not_reaching V s f hm).2.2 s1 o1 hr).2.2
  | true =>
    by_cases hq : s.m_predictedImage = -1
    · rw [processFrame_scan V s f hm hq] at hf hr
      rcases hs : scanLoop V (List.range s.m_trainImageNum)
          (withQuery V s f.queryImage f.width f.height) with ⟨calls, _ | ⟨fi, s2⟩⟩
      · simp [hs] at hr
      · simp only [hs] at hf hr
        by_cases hfi : fi ≠ -1
        · simp only [if_pos hfi] at hf
          exact absurd hf hfi
        · simp only [if_neg hfi, Option.some.injEq, Prod.mk.injEq] at hr
          exact hr.2.symm
    · rw [processFrame_predicted V s f hm hq] at hf hr
      rcases hd : doMatching V (withQuery V s f.queryImage f.width f.height) s.m_predictedImage
        with _ | ⟨_ | _, s2⟩
      · simp [hd] at hr
      · simp only [hd, Option.some.injEq, Prod.mk.injEq] at hr
        exact hr.2.symm
      · obtain ⟨p1, p2, hH⟩ := doMatching_true V _ _ _ hd
        simp only [hd] at hf
        rw [hH] at hf
        exact absurd hf hq


theorem mulF32_mono_right {d f f' : ℚ} (hd : 0 ≤ d) (hf' : 0 ≤ f') (hff : f' ≤ f) :
    mulF32 d f' ≤ mulF32 d f :=
  roundF32_mono_nonneg (mul_nonneg hd hf') (mul_le_mul_of_nonneg_left hff hd)



theorem roundF32_below_threshold :
    roundF32 (12116870 / 18641340) < roundF32 (65 / 100) := by decide!

theorem inlier_test (i r : ℕ) (hr : 0 < r) (hir : i ≤ r) (hr2 : r ≤ 932067) :
    REQUIRED_INLIERS ≤ divF32 (intToF32 (i : ℤ)) (intToF32 (r : ℤ)) ↔ 13 * r ≤ 20 * i := by
  have hi : roundF32 (i : ℚ) = i := roundF32_natCast_small i (by omega)
  have hrr : roundF32 (r : ℚ) = r := roundF32_natCast_small r (by omega)
  have hrq : (0 : ℚ) < (r : ℚ) := by exact_mod_cast hr
  unfold REQUIRED_INLIERS divF32 intToF32
  simp only [Int.cast_natCast, hi, hrr]
  constructor
  · intro h
    by_contra hlt
    push_neg at hlt
    have h1 : (i : ℚ) / r ≤ 12116870 / 18641340 := by
      rw [div_le_div_iff₀ hrq (by norm_num)]
      have a1 : (20 * i + 1 : ℚ) ≤ 13 * r := by exact_mod_cast hlt
      have a2 : (r : ℚ) ≤ 932067 := by exact_mod_cast hr2
      linarith
    have h2 := roundF32_mono_nonneg (div_nonneg (Nat.cast_nonneg i) hrq.le) h1
    exact absurd (lt_of_le_of_lt h2 roundF32_below_threshold) (not_lt.mpr h)
  · intro h
    apply roundF32_mono_nonneg (by norm_num)
    rw [le_div_iff₀ hrq]
    have a1 : (13 * r : ℚ) ≤ 20 * i := by exact_mod_cast h
    linarith


theorem doMatching_true_iff (V : Vision) (s : State) (imageIndex : ℤ) :
    (∃ s1, doMatching V s imageIndex = some (true, s1)) ↔
    ∃ descriptors rule1 keypoints points1 points2,
      vecAt? s.m_trainImagesDescriptors imageIndex = some descriptors ∧
      filter1 KNN_MATCHES_SIMILARITY_FACTOR (V.knnMatch descriptors s.m_queryImageDescriptors)
        = some rule1 ∧
      1 ≤ rule1.length ∧
      REQUIRED_MATCHES ≤ (filter2 rule1).length ∧
      vecAt? s.m_trainImagesKeypoints imageIndex = some keypoints ∧
      matchedPoints keypoints (fun m => m.queryIdx) (filter2 rule1) = some points1 ∧
      matchedPoints s.m_queryImageKeypoints (fun m => m.trainIdx) (filter2 rule1)
        = some points2 ∧
      (V.findHomography points1 points2).1.empty = false ∧
      REQUIRED_INLIERS ≤ inlierPercentage (V.findHomography points1 points2).2 := by
  constructor
  · rintro ⟨s1, h⟩
    unfold doMatching at h
    cases hd : vecAt? s.m_trainImagesDescriptors imageIndex with
    | none => simp [hd] at h
    | some d =>
      simp only [hd] at h
      cases hf : filter1 KNN_MATCHES_SIMILARITY_FACTOR (V.knnMatch d s.m_queryImageDescriptors) with
      | none => simp [hf] at h
      | some good =>
        simp only [hf] at h
        split_ifs at h with h1 h2
        · simp at h
        · simp at h
        · cases hk : vecAt? s.m_trainImagesKeypoints imageIndex with
          | none => simp [hk] at h
          | some kps =>
            simp only [hk] at h
            split at h
            · rename_i p1 p2 hp1 hp2
              split_ifs at h with h3 h4
              · refine ⟨d, good, kps, p1, p2, rfl, hf, ?_, by omega, rfl, hp1, hp2, ?_, h4⟩
                · rcases good with _ | ⟨a, l⟩
                  · simp at h1
                  · simp
                · simpa using h3
              · simp at h
              · simp at h
            · simp at h
  · rintro ⟨d, good, kps, p1, p2, hd, hf, h1, h2, hk, hp1, hp2, h3, h4⟩
    unfold doMatching
    have g1 : ¬ good.length = 0 := by omega
    have g2 : ¬ (filter2 good).length < REQUIRED_MATCHES := by omega
    simp only [hd, hf, hk, hp1, hp2, if_neg g1, if_neg g2, h3, Bool.not_false, if_true]
    simp [h4]

/-! ### The registry and the idle tracker where the code does what the specification says -/


theorem processFrame_empty_idle (V : Vision) (s : State) (f : FrameIn)
    (hn : s.m_trainImageNum = 0) (hp : s.m_predictedImage = -1) :
    (processFrame V s f).calls = [] ∧ (processFrame V s f).foundImage = -1 ∧
    ∀ s1 o1, (processFrame V s f).result = some (s1, o1) → o1 = { f.out with foundPage := -1 } := by
  cases hm : reachesMatching V s f with
  | false =>
    obtain ⟨h1, h2, h3⟩ := processFrame_not_reaching V s f hm
    exact ⟨h1, h2, fun s1 o1 hr => (h3 s1 o1 hr).2.2⟩
  | true =>
    rw [processFrame_scan V s f hm hp, hn]
    simp [scanLoop]

theorem vecAt?_natCast {α : Type} (v : List α) (i : ℕ) : vecAt? v (i : ℤ) = v.get? i := by
  simp [vecAt?]

theorem initScanLoop_eq (V : Vision) (is : List ℕ) : ∀ s : State,
    (∀ i ∈ is, i < s.m_trainImages.length) →
    initScanLoop V is s = some { s with
      m_trainImagesKeypoints := s.m_trainImagesKeypoints ++
        is.map (fun i => (extractTraining V (s.m_trainImages.getD i ⟨0, 0, []⟩)).1)
      m_trainImagesDescriptors := s.m_trainImagesDescriptors ++
        is.map (fun i => (extractTraining V (s.m_trainImages.getD i ⟨0, 0, []⟩)).2) } := by
  induction is with
  | nil => intro s _; simp [initScanLoop]
  | cons i rest ih =>
    intro s h
    have hi : i < s.m_trainImages.length := h i (List.mem_cons_self _ _)
    unfold initScanLoop
    rw [vecAt?_natCast, List.get?_eq_get hi]
    simp only
    have h2 := ih { s with
        m_trainImagesKeypoints := s.m_trainImagesKeypoints ++
          [(extractTraining V (s.m_trainImages.get ⟨i, hi⟩)).1]
        m_trainImagesDescriptors := s.m_trainImagesDescriptors ++
          [(extractTraining V (s.m_trainImages.get ⟨i, hi⟩)).2] }
      (fun j hj => h j (List.mem_cons_of_mem _ hj))
    rw [h2]
    simp [List.getElem?_eq_getElem hi]

theorem map_getD_range {α β : Type} (l : List α) (d : α) (g : α → β) :
    (List.range l.length).map (fun i => g (l.getD i d)) = l.map g := by
  apply List.ext_getElem
  · simp
  · intro i h1 h2
    have h3 : i < l.length := by simpa using h1
    simp [List.getElem?_eq_getElem h3]

theorem initScan_fresh (V : Vision) (s : State)
    (hk : s.m_trainImagesKeypoints = []) (hd : s.m_trainImagesDescriptors = [])
    (hn : s.m_trainImageNum = s.m_trainImages.length) :
    initScan V s = some { s with
      m_matcher := true
      m_briskDetector := true
      m_trainImagesKeypoints := s.m_trainImages.map fun image => (extractTraining V image).1
      m_trainImagesDescriptors := s.m_trainImages.map fun image => (extractTraining V image).2
      m_initialized := true } := by
  unfold initScan
  rw [initScanLoop_eq V _ _ (by intro i hi; simpa [hn] using hi)]
  simp only [hk, hd, hn, List.nil_append]
  rw [map_getD_range s.m_trainImages ⟨0, 0, []⟩ (fun image => (extractTraining V image).1),
    map_getD_range s.m_trainImages ⟨0, 0, []⟩ (fun image => (extractTraining V image).2)]

/-! ### The tracker, the scan and the filters -/

theorem addImage_tracker (V : Vision) (s s1 : State) (input : List ℚ) (w h page : ℤ)
    (hs : addImage V s input w h page = some s1) :
    s1.m_predictedImage = s.m_predictedImage ∧ s1.m_predictionCount = s.m_predictionCount := by
  unfold addImage at hs
  split_ifs at hs
  simp only [Option.some.injEq] at hs
  subst hs
  exact ⟨rfl, rfl⟩

theorem initScanLoop_tracker (V : Vision) (is : List ℕ) : ∀ s s1 : State,
    initScanLoop V is s = some s1 →
    s1.m_predictedImage = s.m_predictedImage ∧ s1.m_predictionCount = s.m_predictionCount ∧
    s1.m_trainImageNum = s.m_trainImageNum ∧ s1.m_trainImages = s.m_trainImages ∧
    s1.m_imagePages = s.m_imagePages := by
  induction is with
  | nil => intro s s1 h; simp [initScanLoop] at h; subst h; exact ⟨rfl, rfl, rfl, rfl, rfl⟩
  | cons i rest ih =>
    intro s s1 h
    unfold initScanLoop at h
    cases hv : vecAt? s.m_trainImages (i : ℤ) with
    | none => simp [hv] at h
    | some image =>
      simp only [hv] at h
      have := ih { s with
        m_trainImagesKeypoints := s.m_trainImagesKeypoints ++ [(extractTraining V image).1]
        m_trainImagesDescriptors := s.m_trainImagesDescriptors ++ [(extractTraining V image).2] }
        s1 h
      exact this

theorem initScan_tracker (V : Vision) (s s1 : State) (hs : initScan V s = some s1) :
    s1.m_predictedImage = s.m_predictedImage ∧ s1.m_predictionCount = s.m_predictionCount := by
  unfold initScan at hs
  cases hl : initScanLoop V (List.range s.m_trainImageNum)
      { s with m_matcher := true, m_briskDetector := true } with
  | none => simp [hl] at hs
  | some s2 =>
    simp only [hl, Option.some.injEq] at hs
    subst hs
    obtain ⟨h1, h2, _⟩ := initScanLoop_tracker V _ _ _ hl
    exact ⟨h1, h2⟩

theorem processFrame_tracker (V : Vision) (s s1 : State) (f : FrameIn) (o1 : Output)
    (hinv : TrackerInv s) (hr : (processFrame V s f).result = some (s1, o1)) : TrackerInv s1 := by
  obtain ⟨h0, h3, hset⟩ := hinv
  by_cases hf : (processFrame V s f).foundImage = -1
  · cases hm : reachesMatching V s f with
    | false =>
      obtain ⟨a, b, _⟩ := (processFrame_not_reaching V s f hm).2.2 s1 o1 hr
      exact ⟨by rw [b]; exact h0, by rw [b]; exact h3, by rw [a, b]; exact hset⟩
    | true =>
      by_cases hq : s.m_predictedImage = -1
      · rw [processFrame_scan V s f hm hq] at hf hr
        rcases hs : scanLoop V (List.range s.m_trainImageNum)
            (withQuery V s f.queryImage f.width f.height) with ⟨calls, _ | ⟨fi, s2⟩⟩
        · simp [hs] at hr
        · simp only [hs] at hf hr
          by_cases hfi : fi ≠ -1
          · simp only [if_pos hfi] at hf
            exact absurd hf hfi
          · simp only [if_neg hfi, Option.some.injEq, Prod.mk.injEq] at hr
            have hfi2 : fi = -1 := by
              by_contra hne
              exact hfi hne
            subst hfi2
            obtain ⟨_, h2⟩ := scanLoop_none_found V _ _ _ _ hs hq
            rw [← hr.1, h2]
            exact ⟨h0, h3, hset⟩
      · have hrun : processFrame V s f = ⟨[s.m_predictedImage], -1, some (s1, o1)⟩ := by
          have e1 := processFrame_predicted V s f hm hq
          rcases hd : doMatching V (withQuery V s f.queryImage f.width f.height)
              s.m_predictedImage with _ | ⟨_ | _, s2⟩
          · rw [e1] at hr; simp [hd] at hr
          · rw [e1] at hr ⊢
            simp only [hd] at hr ⊢
            rw [hr]
          · rw [e1] at hf
            simp only [hd] at hf
            obtain ⟨p1, p2, hH⟩ := doMatching_true V _ _ _ hd
            rw [hH] at hf
            exact absurd hf hq
        obtain ⟨a, b⟩ := processFrame_rejected V s s1 f o1 s.m_predictedImage rfl hq hrun
        have hc1 := hset hq
        refine ⟨by rw [b]; omega, by rw [b]; omega, ?_⟩
        intro hne
        rw [a] at hne
        rw [b]
        by_contra hlt
        have : s.m_predictionCount - 1 = 0 := by omega
        rw [if_pos this] at hne
        exact hne rfl
  · obtain ⟨a, b⟩ := processFrame_accept_state V s s1 f o1 _ rfl hf hr
    refine ⟨by rw [b]; decide, by rw [b], fun _ => by rw [b]; decide⟩

theorem step_tracker (V : Vision) (s s1 : State) (c : Call) (hinv : TrackerInv s)
    (hs : step V s c = some s1) : TrackerInv s1 := by
  cases c with
  | addImage input w h page =>
    obtain ⟨a, b⟩ := addImage_tracker V s s1 input w h page hs
    unfold TrackerInv
    rw [a, b]; exact hinv
  | initScan =>
    obtain ⟨a, b⟩ := initScan_tracker V s s1 hs
    unfold TrackerInv
    rw [a, b]; exact hinv
  | removeImages =>
    simp only [step, Option.some.injEq] at hs
    subst hs
    exact hinv
  | processImage f =>
    simp only [step, Option.map_eq_some'] at hs
    obtain ⟨⟨s2, o2⟩, hr, he⟩ := hs
    simp only at he
    subst he
    exact processFrame_tracker V s s2 f o2 hinv hr

theorem runCalls_tracker (V : Vision) (cs : List Call) : ∀ s s1 : State, TrackerInv s →
    runCalls V s cs = some s1 → TrackerInv s1 := by
  induction cs with
  | nil => intro s s1 h hr; simp [runCalls] at hr; subst hr; exact h
  | cons c rest ih =>
    intro s s1 h hr
    unfold runCalls at hr
    cases hs : step V s c with
    | none => simp [hs] at hr
    | some s2 =>
      simp only [hs] at hr
      exact ih s2 s1 (step_tracker V s s2 c h hs) hr


theorem reportPose_page (V : Vision) (s1 : State) (fi w h : ℤ) (g : Mat) (o o1 : Output)
    (hr : reportPose V s1 fi w h g o = some o1) :
    vecAt? s1.m_imagePages fi = some o1.foundPage := by
  unfold reportPose at hr
  cases hi : vecAt? s1.m_trainImages fi with
  | none => simp [hi] at hr
  | some image =>
    cases hpg : vecAt? s1.m_imagePages fi with
    | none => simp [hi, hpg] at hr
    | some page =>
      simp only [hi, hpg, Option.some.injEq] at hr
      rw [← hr]

theorem reportPose_some (V : Vision) (s1 : State) (fi w h : ℤ) (g : Mat) (o : Output)
    (image : Mat) (page : ℤ)
    (hi : vecAt? s1.m_trainImages fi = some image) (hpg : vecAt? s1.m_imagePages fi = some page) :
    ∃ o1, reportPose V s1 fi w h g o = some o1 ∧ o1.foundPage = page := by
  unfold reportPose
  simp only [hi, hpg]
  exact ⟨_, rfl, rfl⟩


theorem range_split (n i : ℕ) (pre post : List ℕ) (h : List.range n = pre ++ i :: post) :
    pre = List.range i ∧ i < n := by
  have hl : pre.length < n := by
    have := congrArg List.length h
    simp at this
    omega
  have hi : i = pre.length := by
    have h1 : (List.range n)[pre.length]? = some pre.length := List.getElem?_range hl
    have h2 : (pre ++ i :: post)[pre.length]? = some i := by
      rw [List.getElem?_append_right (le_refl _)]
      simp
    rw [h, h2] at h1
    exact Option.some.inj h1
  subst hi
  refine ⟨?_, hl⟩
  have := congrArg (List.take pre.length) h
  rw [List.take_range, List.take_left, min_eq_left hl.le] at this
  exact this.symm

/-- What the scan loop does from idle globals. -/
theorem scanLoop_idle (V : Vision) (is : List ℕ) (s : State) (hp : s.m_predictedImage = -1) :
    ((scanLoop V is s).1 = is.map (fun i : ℕ => (i : ℤ)) ∧ (scanLoop V is s).2 = some (-1, s) ∧
      ∀ j ∈ is, doMatching V s (j : ℤ) = some (false, s)) ∨
    ∃ pre i post, is = pre ++ i :: post ∧
      (scanLoop V is s).1 = (pre ++ [i]).map (fun i : ℕ => (i : ℤ)) ∧
      (∀ j ∈ pre, doMatching V s (j : ℤ) = some (false, s)) ∧
      ((doMatching V s (i : ℤ) = none ∧ (scanLoop V is s).2 = none) ∨
       ∃ s1, doMatching V s (i : ℤ) = some (true, s1) ∧
         (scanLoop V is s).2 = some ((i : ℤ),
           { s1 with m_predictedImage := (i : ℤ),
                     m_predictionCount := TOTAL_PREDICTION_ATTEMPTS })) := by
  induction is with
  | nil => left; simp [scanLoop]
  | cons i rest ih =>
    have hne : ¬ ((i : ℤ) = s.m_predictedImage) := by rw [hp]; omega
    unfold scanLoop
    rw [if_neg hne]
    rcases hd : doMatching V s (i : ℤ) with _ | ⟨_ | _, s1⟩
    · right
      exact ⟨[], i, rest, rfl, by simp, by simp, Or.inl ⟨hd, rfl⟩⟩
    · have := doMatching_false V _ _ _ hd
      subst this
      rcases ih with ⟨h1, h2, h3⟩ | ⟨pre, k, post, h1, h2, h3, h4⟩
      · left
        refine ⟨by simp [h1], by simp [h2], ?_⟩
        intro j hj
        rcases List.mem_cons.mp hj with hj | hj
        · subst hj; exact hd
        · exact h3 j hj
      · right
        refine ⟨i :: pre, k, post, by simp [h1], by simp [h2], ?_, ?_⟩
        · intro j hj
          rcases List.mem_cons.mp hj with hj | hj
          · subst hj; exact hd
          · exact h3 j hj
        · simpa using h4
    · right
      exact ⟨[], i, rest, rfl, by simp, by simp, Or.inr ⟨s1, hd, rfl⟩⟩


theorem scanLoop_eq_noSkip (V : Vision) (is : List ℕ) (s : State)
    (hp : s.m_predictedImage = -1) : scanLoop V is s = scanLoopNoSkip V is s := by
  induction is with
  | nil => rfl
  | cons i rest ih =>
    have hne : ¬ ((i : ℤ) = s.m_predictedImage) := by rw [hp]; omega
    unfold scanLoop scanLoopNoSkip
    rw [if_neg hne]
    rcases hd : doMatching V s (i : ℤ) with _ | ⟨_ | _, s1⟩
    · rfl
    · have := doMatching_false V _ _ _ hd
      subst this
      simp only [ih]
    · rfl

theorem lookForPredicted_scan (V : Vision) (s s1 : State) (calls : List ℤ) (fi : ℤ)
    (h : lookForPredicted V s = (calls, some (false, fi, s1))) (hfi : fi = -1) :
    s1.m_predictedImage = -1 := by
  unfold lookForPredicted at h
  split_ifs at h with hp
  · rcases hd : doMatching V s s.m_predictedImage with _ | ⟨_ | _, s2⟩
    · simp [hd] at h
    · simp [hd] at h
    · simp only [hd, Prod.mk.injEq, Option.some.injEq, true_and] at h
      obtain ⟨_, h2, h3⟩ := h
      rw [← h3]
      show s2.m_predictedImage = -1
      rw [h2, hfi]
  · simp only [Prod.mk.injEq, Option.some.injEq, true_and] at h
    obtain ⟨_, _, h3⟩ := h
    rw [← h3]
    by_contra hne
    exact hp hne


theorem eraseFromFirstExceeding_eq_takeWhile (c : ℚ) (l : List DMatch) :
    eraseFromFirstExceeding c l = l.takeWhile (fun m => decide (m.distance ≤ c)) := by
  induction l with
  | nil => rfl
  | cons m rest ih =>
    unfold eraseFromFirstExceeding
    by_cases h : m.distance > c
    · have h2 : ¬ m.distance ≤ c := not_le.mpr h
      simp [h, h2, List.takeWhile]
    · have h2 : m.distance ≤ c := not_lt.mp h
      simp [h, h2, List.takeWhile, ih]

theorem takeWhile_eq_filter_of_sorted (c : ℚ) (l : List DMatch)
    (hs : l.Sorted (fun a b => a.distance ≤ b.distance)) :
    l.takeWhile (fun m => decide (m.distance ≤ c)) = l.filter (fun m => decide (m.distance ≤ c)) := by
  induction l with
  | nil => rfl
  | cons m rest ih =>
    have hrest := ih (List.Sorted.of_cons hs)
    by_cases h : m.distance ≤ c
    · simp [List.takeWhile, List.filter, h, hrest]
    · have hnil : rest.filter (fun m => decide (m.distance ≤ c)) = [] := by
        rw [List.filter_eq_nil_iff]
        intro a ha
        have := List.rel_of_sorted_cons hs a ha
        simp only [decide_eq_true_eq, not_le]
        exact lt_of_lt_of_le (not_le.mp h) this
      simp [List.takeWhile, List.filter, h, hnil]

theorem sortMatches_sorted (good : List DMatch) :
    (sortMatches good).Sorted (fun a b => a.distance ≤ b.distance) := by
  haveI : IsTotal DMatch (fun a b => a.distance ≤ b.distance) := ⟨fun a b => le_total _ _⟩
  haveI : IsTrans DMatch (fun a b => a.distance ≤ b.distance) := ⟨fun a b c => le_trans⟩
  exact List.sorted_insertionSort _ good

theorem sortMatches_perm (good : List DMatch) : (sortMatches good).Perm good :=
  List.perm_insertionSort _ good


theorem truncToInt_nonneg {r : ℚ} (hr : 0 ≤ r) : truncToInt r = ⌊r⌋ := by
  unfold truncToInt
  rw [Int.tdiv_eq_ediv (Rat.num_nonneg.mpr hr) (by positivity), Rat.floor_def]

theorem truncToInt_intCast (z : ℤ) : truncToInt (z : ℚ) = z := by
  unfold truncToInt
  simp

theorem foldl_max_spec (ks : List KeyPoint) : ∀ r0 : ℚ,
    r0 ≤ ks.foldl (fun m k => if m < k.response then k.response else m) r0 ∧
    (∀ k ∈ ks, k.response ≤ ks.foldl (fun m k => if m < k.response then k.response else m) r0) ∧
    (ks.foldl (fun m k => if m < k.response then k.response else m) r0 = r0 ∨
      ∃ k ∈ ks, k.response = ks.foldl (fun m k => if m < k.response then k.response else m) r0) := by
  induction ks with
  | nil => intro r0; simp
  | cons k rest ih =>
    intro r0
    simp only [List.foldl_cons]
    obtain ⟨h1, h2, h3⟩ := ih (if r0 < k.response then k.response else r0)
    have hle : r0 ≤ (if r0 < k.response then k.response else r0) := by
      split_ifs with h
      · exact h.le
      · exact le_refl _
    have hk : k.response ≤ (if r0 < k.response then k.response else r0) := by
      split_ifs with h
      · exact le_refl _
      · exact not_lt.mp h
    refine ⟨le_trans hle h1, ?_, ?_⟩
    · intro a ha
      rcases List.mem_cons.mp ha with h | h
      · rw [h]; exact le_trans hk h1
      · exact h2 a h
    · rcases h3 with h3 | ⟨a, ha, h3⟩
      · by_cases h : r0 < k.response
        · right
          refine ⟨k, List.mem_cons_self _ _, ?_⟩
          rw [h3, if_pos h]
        · left
          rw [h3, if_neg h]
      · right
        exact ⟨a, List.mem_cons_of_mem _ ha, h3⟩

/-- The code's test, exactly. -/
theorem keypointReduction_mem_iff (kps : List KeyPoint)
    (hlen : MIN_KEYPOINTS_FOR_REDUCTION < kps.length) :
    ∃ kmax ∈ kps, (∀ k ∈ kps, k.response ≤ kmax.response) ∧
      keypointReduction kps = kps.filter (fun k =>
        decide (mulF32 kmax.response MIN_RESPONSE_FACTOR < intToF32 (truncToInt k.response))) := by
  cases kps with
  | nil => simp at hlen
  | cons k0 ks =>
    obtain ⟨h1, h2, h3⟩ := foldl_max_spec ks k0.response
    have hred : keypointReduction (k0 :: ks) = (k0 :: ks).filter (fun k =>
        decide (mulF32 (ks.foldl (fun m k => if m < k.response then k.response else m) k0.response)
          MIN_RESPONSE_FACTOR < intToF32 (truncToInt k.response))) := by
      unfold keypointReduction
      rw [if_pos hlen]
    rcases h3 with h3 | ⟨a, ha, h3⟩
    · refine ⟨k0, List.mem_cons_self _ _, ?_, ?_⟩
      · intro k hk
        rcases List.mem_cons.mp hk with h | h
        · rw [h]
        · rw [← h3]; exact h2 k h
      · rw [hred, h3]
    · refine ⟨a, List.mem_cons_of_mem _ ha, ?_, ?_⟩
      · intro k hk
        rw [h3]
        rcases List.mem_cons.mp hk with h | h
        · rw [h]; exact h1
        · exact h2 k h
      · rw [hred, h3]


theorem foldl_max_replicate (n : ℕ) (k : KeyPoint) (m : ℚ) (h : ¬ m < k.response) :
    (List.replicate n k).foldl (fun m k => if m < k.response then k.response else m) m = m := by
  induction n with
  | zero => rfl
  | succ n ih => simp only [List.replicate_succ, List.foldl_cons, if_neg h, ih]

theorem toyKeypoints_length : toyKeypoints.length = 801 := by
  unfold toyKeypoints
  rw [List.length_cons, List.length_replicate]

theorem keypointReduction_five_and (r : ℚ) (h1 : ¬ (5 : ℚ) < r)
    (h2 : ¬ mulF32 5 MIN_RESPONSE_FACTOR < intToF32 (truncToInt r)) :
    keypointReduction (toyKp 5 :: List.replicate 800 (toyKp r)) = [toyKp 5] := by
  have hlen : (toyKp 5 :: List.replicate 800 (toyKp r)).length > MIN_KEYPOINTS_FOR_REDUCTION := by
    rw [List.length_cons, List.length_replicate]
    decide
  have hmax : (List.replicate 800 (toyKp r)).foldl
      (fun m k => if m < k.response then k.response else m) (toyKp 5).response = 5 :=
    foldl_max_replicate 800 (toyKp r) 5 h1
  have h5 : mulF32 5 MIN_RESPONSE_FACTOR < intToF32 (truncToInt (toyKp 5).response) := by decide!
  have h3 : ¬ mulF32 5 MIN_RESPONSE_FACTOR < intToF32 (truncToInt (toyKp r).response) := h2
  unfold keypointReduction
  rw [if_pos hlen]
  simp only [hmax, List.filter_cons, h5, h3, decide_True, decide_False, if_true,
    List.filter_replicate, Bool.false_eq_true, if_false]

theorem keypointReduction_toyKeypoints : keypointReduction toyKeypoints = [toyKp 5] :=
  keypointReduction_five_and 3 (by decide!) (by decide!)

/-- The response is compared after its conversion to `int`: of one keypoint of response 5
    and 800 of response 3.5, with the limit `5 * 0.6f = 3`, only the first is kept,
    although 3.5 is above the limit. -/
theorem keypointReduction_compares_truncated :
    mulF32 5 MIN_RESPONSE_FACTOR < (toyKp (7 / 2)).response ∧
    keypointReduction (toyKp 5 :: List.replicate 800 (toyKp (7 / 2))) = [toyKp 5] :=
  ⟨by decide!, keypointReduction_five_and (7 / 2) (by decide!) (by decide!)⟩

/-! ### The predicted index while the registry is not cleared -/

theorem processFrame_not_reaching_state (V : Vision) (s s1 : State) (f : FrameIn) (o1 : Output)
    (h : reachesMatching V s f = false) (hr : (processFrame V s f).result = some (s1, o1)) :
    s1 = s ∨ s1 = withQuery V s f.queryImage f.width f.height := by
  unfold processFrame processImage at hr
  by_cases hi : s.m_initialized = true
  · by_cases hd : f.width ≤ 0 ∨ f.height ≤ 0
    · simp [hi, hd] at hr
    · have hd2 : 0 < f.width ∧ 0 < f.height := by omega
      by_cases hq : (withQuery V s f.queryImage f.width f.height).m_queryImageKeypoints.length = 0 ∨
          (withQuery V s f.queryImage f.width f.height).m_queryImageDescriptors.cols = 0
      · simp only [hi, hd, hq, Bool.not_true, Bool.false_eq_true, if_false, if_true,
          Option.some.injEq, Prod.mk.injEq] at hr
        exact Or.inr hr.1.symm
      · exfalso
        simp [reachesMatching, hi, hd2] at h
        simp at hq
        exact hq.2 (h hq.1)
  · simp at hi
    simp [hi] at hr
    exact Or.inl hr.1.symm

theorem processFrame_registry (V : Vision) (s s1 : State) (f : FrameIn) (o1 : Output)
    (hr : (processFrame V s f).result = some (s1, o1)) :
    s1.m_trainImageNum = s.m_trainImageNum ∧
    (s1.m_predictedImage = s.m_predictedImage ∨ s1.m_predictedImage = -1 ∨
      ∃ i : ℕ, i < s.m_trainImageNum ∧ s1.m_predictedImage = (i : ℤ)) := by
  cases hm : reachesMatching V s f with
  | false =>
    rcases processFrame_not_reaching_state V s s1 f o1 hm hr with h | h
    · rw [h]; exact ⟨rfl, Or.inl rfl⟩
    · rw [h]; exact ⟨rfl, Or.inl rfl⟩
  | true =>
    by_cases hq : s.m_predictedImage = -1
    · have hpq : (withQuery V s f.queryImage f.width f.height).m_predictedImage = -1 := hq
      have key := scanLoop_idle V (List.range s.m_trainImageNum)
        (withQuery V s f.queryImage f.width f.height) hpq
      rw [processFrame_scan V s f hm hq] at hr
      rcases hs : scanLoop V (List.range s.m_trainImageNum)
          (withQuery V s f.queryImage f.width f.height) with ⟨calls, res⟩
      rw [hs] at key hr
      simp only at key hr
      rcases key with ⟨_, h2, _⟩ | ⟨pre, i, post, h1, _, _, h4⟩
      · subst h2
        simp only [ne_eq, not_true_eq_false, if_false, Option.some.injEq, Prod.mk.injEq] at hr
        rw [← hr.1]
        exact ⟨rfl, Or.inl rfl⟩
      · obtain ⟨_, hin⟩ := range_split _ _ _ _ h1
        rcases h4 with ⟨_, h6⟩ | ⟨s2, h5, h6⟩
        · subst h6
          simp at hr
        · subst h6
          have hne : (i : ℤ) ≠ -1 := by omega
          simp only [if_pos hne, Option.map_eq_some', Prod.mk.injEq] at hr
          obtain ⟨o, _, hr1, _⟩ := hr
          obtain ⟨p1, p2, hH⟩ := doMatching_true V _ _ _ h5
          rw [← hr1, hH]
          exact ⟨rfl, Or.inr (Or.inr ⟨i, hin, rfl⟩)⟩
    · rw [processFrame_predicted V s f hm hq] at hr
      rcases hd : doMatching V (withQuery V s f.queryImage f.width f.height) s.m_predictedImage
        with _ | ⟨_ | _, s2⟩
      · simp [hd] at hr
      · have := doMatching_false V _ _ _ hd
        subst this
        simp only [hd, Option.some.injEq, Prod.mk.injEq] at hr
        rw [← hr.1]
        split_ifs
        · exact ⟨rfl, Or.inr (Or.inl rfl)⟩
        · exact ⟨rfl, Or.inl rfl⟩
      · obtain ⟨p1, p2, hH⟩ := doMatching_true V _ _ _ hd
        simp only [hd, Option.map_eq_some', Prod.mk.injEq] at hr
        obtain ⟨o, _, hr1, _⟩ := hr
        rw [← hr1, hH]
        exact ⟨rfl, Or.inl rfl⟩

theorem addImage_registry (V : Vision) (s s1 : State) (input : List ℚ) (w h page : ℤ)
    (hs : addImage V s input w h page = some s1) :
    s1.m_trainImageNum = s.m_trainImageNum + 1 := by
  unfold addImage at hs
  split_ifs at hs
  simp only [Option.some.injEq] at hs
  subst hs
  rfl

theorem initScan_registry (V : Vision) (s s1 : State) (hs : initScan V s = some s1) :
    s1.m_trainImageNum = s.m_trainImageNum := by
  unfold initScan at hs
  cases hl : initScanLoop V (List.range s.m_trainImageNum)
      { s with m_matcher := true, m_briskDetector := true } with
  | none => simp [hl] at hs
  | some s2 =>
    simp only [hl, Option.some.injEq] at hs
    subst hs
    exact (initScanLoop_tracker V _ _ _ hl).2.2.1

/-- As long as `removeImages` is not called, the predicted image is `-1` or a registered
    index. -/
theorem prediction_in_range_without_clear (V : Vision) (cs : List Call) :
    ∀ s s1 : State, PredictionInRange s → Call.removeImages ∉ cs →
      runCalls V s cs = some s1 → PredictionInRange s1 := by
  induction cs with
  | nil => intro s s1 h _ hr; simp [runCalls] at hr; subst hr; exact h
  | cons c rest ih =>
    intro s s1 h hno hr
    unfold runCalls at hr
    cases hs : step V s c with
    | none => simp [hs] at hr
    | some s2 =>
      simp only [hs] at hr
      refine ih s2 s1 ?_ (fun hmem => hno (List.mem_cons_of_mem _ hmem)) hr
      cases c with
      | addImage input w h0 page =>
        obtain ⟨a, _⟩ := addImage_tracker V s s2 input w h0 page hs
        have b := addImage_registry V s s2 input w h0 page hs
        unfold PredictionInRange at h ⊢
        rw [a, b]
        rcases h with h | h
        · exact Or.inl h
        · right; push_cast; omega
      | initScan =>
        obtain ⟨a, _⟩ := initScan_tracker V s s2 hs
        have b := initScan_registry V s s2 hs
        unfold PredictionInRange at h ⊢
        rw [a, b]; exact h
      | removeImages => exact absurd (List.mem_cons_self _ _) hno
      | processImage f =>
        simp only [step, Option.map_eq_some'] at hs
        obtain ⟨⟨s3, o3⟩, hr3, he⟩ := hs
        simp only at he
        subst he
        obtain ⟨a, b⟩ := processFrame_registry V s s3 f o3 hr3
        unfold PredictionInRange at h ⊢
        rw [a]
        rcases b with b | b | ⟨i, hi, b⟩
        · rw [b]; exact h
        · exact Or.inl b
        · right; rw [b]; omega

/-! ### The centroid and the accepted homography -/

theorem roundEven_neg (q : ℚ) : roundEven (-q) = -roundEven q := by
  by_cases hq : ((⌊q⌋ : ℤ) : ℚ) = q
  · rw [← hq, ← Int.cast_neg, roundEven_intCast, roundEven_intCast]
  · have h1 : ((⌊q⌋ : ℤ) : ℚ) < q := lt_of_le_of_ne (Int.floor_le q) hq
    have h2 : q < ⌊q⌋ + 1 := Int.lt_floor_add_one q
    have hf : ⌊-q⌋ = -⌊q⌋ - 1 := by
      rw [Int.floor_eq_iff]; push_cast; constructor <;> linarith
    unfold roundEven
    simp only [hf]
    push_cast
    split_ifs <;> first | omega | (exfalso; linarith)

theorem floorLog2_neg (q : ℚ) : floorLog2 (-q) = floorLog2 q := by
  unfold floorLog2
  simp only [Rat.num_neg_eq_neg_num, Rat.den_neg_eq_den, Int.natAbs_neg, abs_neg]

theorem roundF32_neg (q : ℚ) : roundF32 (-q) = -roundF32 q := by
  unfold roundF32
  by_cases h : q = 0
  · simp [h]
  · rw [if_neg h, if_neg (neg_ne_zero.mpr h)]
    simp only [floorLog2_neg, neg_div, roundEven_neg]
    push_cast
    ring

theorem roundF32_zero : roundF32 0 = 0 := by simp [roundF32]

theorem roundF32_mono {a b : ℚ} (hab : a ≤ b) : roundF32 a ≤ roundF32 b := by
  rcases le_total 0 a with ha | ha
  · exact roundF32_mono_nonneg ha hab
  · have h1 : roundF32 a ≤ 0 := by
      have := roundF32_nonneg (neg_nonneg.mpr ha)
      rw [roundF32_neg] at this
      linarith
    rcases le_total 0 b with hb | hb
    · exact le_trans h1 (roundF32_nonneg hb)
    · have := roundF32_mono_nonneg (neg_nonneg.mpr hb) (neg_le_neg hab)
      rw [roundF32_neg, roundF32_neg] at this
      linarith

theorem roundF32_intCast_small (z : ℤ) (h1 : -2 ^ 24 < z) (h2 : z < 2 ^ 24) :
    roundF32 (z : ℚ) = z := by
  rcases le_total 0 z with hz | hz
  · obtain ⟨n, rfl⟩ := Int.eq_ofNat_of_zero_le hz
    have := roundF32_natCast_small n (by omega)
    simpa using this
  · obtain ⟨n, hn⟩ := Int.eq_ofNat_of_zero_le (neg_nonneg.mpr hz)
    have hzn : z = -(n : ℤ) := by omega
    subst hzn
    have := roundF32_natCast_small n (by omega)
    push_cast
    rw [roundF32_neg, this]

theorem truncToInt_neg (q : ℚ) : truncToInt (-q) = -truncToInt q := by
  unfold truncToInt
  simp [Int.neg_tdiv]

theorem truncToInt_eq_integerPart (q : ℚ) : truncToInt q = integerPart q := by
  unfold integerPart
  split_ifs with h
  · exact truncToInt_nonneg h
  · push_neg at h
    have := truncToInt_nonneg (neg_nonneg.mpr h.le)
    rw [truncToInt_neg, Int.floor_neg] at this
    omega

theorem integerPart_mem {a b : ℤ} {y : ℚ} (ha : (a : ℚ) ≤ y) (hb : y ≤ (b : ℚ)) :
    a ≤ integerPart y ∧ integerPart y ≤ b := by
  unfold integerPart
  split_ifs with h
  · exact ⟨Int.le_floor.mpr ha, by exact_mod_cast le_trans (Int.floor_le y) hb⟩
  · exact ⟨by exact_mod_cast le_trans ha (Int.le_ceil y), Int.ceil_le.mpr hb⟩

theorem tdiv_four (z : ℤ) : Int.tdiv z 4 = integerPart ((z : ℚ) / 4) := by
  have h := truncToInt_eq_integerPart ((z : ℚ) / 4)
  rw [← h]
  unfold integerPart at h
  rcases le_total 0 z with hz | hz
  · have h0 : (0 : ℚ) ≤ (z : ℚ) / 4 := by positivity
    rw [truncToInt_nonneg h0, Int.tdiv_eq_ediv hz (by norm_num)]
    have : ((z : ℚ) / 4) = ((z : ℚ) / ((4 : ℕ) : ℚ)) := by norm_num
    rw [this, Rat.floor_intCast_div_natCast]
    rfl
  · have h0 : (0 : ℚ) ≤ ((-z : ℤ) : ℚ) / 4 := by
      have : (0 : ℚ) ≤ ((-z : ℤ) : ℚ) := by exact_mod_cast neg_nonneg.mpr hz
      positivity
    have e1 : (z : ℚ) / 4 = -(((-z : ℤ) : ℚ) / 4) := by push_cast; ring
    rw [e1, truncToInt_neg, truncToInt_nonneg h0]
    have : (((-z : ℤ) : ℚ) / 4) = (((-z : ℤ) : ℚ) / ((4 : ℕ) : ℚ)) := by norm_num
    rw [this, Rat.floor_intCast_div_natCast]
    have e2 : Int.tdiv z 4 = -Int.tdiv (-z) 4 := by rw [Int.neg_tdiv, neg_neg]
    rw [e2, Int.tdiv_eq_ediv (neg_nonneg.mpr hz) (by norm_num)]
    rfl

theorem floatToInt_of_fits (V : Vision) (x : ℚ)
    (h1 : INT_MIN ≤ integerPart x) (h2 : integerPart x ≤ INT_MAX) :
    floatToInt V x = integerPart x := by
  unfold floatToInt
  rw [truncToInt_eq_integerPart, if_pos ⟨h1, h2⟩]

theorem roundF32_quarters (k : ℕ) (hk : k ≤ 4) :
    roundF32 ((k : ℚ) * 2 ^ 28) = (k : ℚ) * 2 ^ 28 := by
  interval_cases k <;> decide!

theorem abs_roundF32_le {x : ℚ} {k : ℕ} (hk : k ≤ 4) (h : |x| ≤ (k : ℚ) * 2 ^ 28) :
    |roundF32 x| ≤ (k : ℚ) * 2 ^ 28 := by
  rw [abs_le] at h ⊢
  have e := roundF32_quarters k hk
  constructor
  · have := roundF32_mono h.1
    rw [roundF32_neg, e] at this
    exact this
  · have := roundF32_mono h.2
    rwa [e] at this

theorem abs_integerPart_le {x : ℚ} {b : ℤ} (h : |x| ≤ (b : ℚ)) : |integerPart x| ≤ b := by
  rw [abs_le] at h ⊢
  exact integerPart_mem (a := -b) (b := b) (by push_cast; exact h.1) h.2

theorem addToIntSum_eq (V : Vision) (s : ℤ) (c : ℚ) (k : ℕ) (hk : k + 1 ≤ 4)
    (hs : |(s : ℚ)| ≤ (k : ℚ) * 2 ^ 28) (hc : |c| ≤ 2 ^ 28) :
    addToIntSum V s c = addCoordinate s c ∧
    |((addCoordinate s c : ℤ) : ℚ)| ≤ ((k + 1 : ℕ) : ℚ) * 2 ^ 28 := by
  have h1 : |roundF32 (s : ℚ)| ≤ (k : ℚ) * 2 ^ 28 := abs_roundF32_le (by omega) hs
  have h2 : |roundF32 (s : ℚ) + c| ≤ ((k + 1 : ℕ) : ℚ) * 2 ^ 28 := by
    have := abs_add (roundF32 (s : ℚ)) c
    push_cast
    linarith
  have h3 : |roundF32 (roundF32 (s : ℚ) + c)| ≤ ((k + 1 : ℕ) : ℚ) * 2 ^ 28 :=
    abs_roundF32_le hk h2
  have h4 : |integerPart (roundF32 (roundF32 (s : ℚ) + c))| ≤ ((k + 1 : ℕ) : ℤ) * 2 ^ 28 := by
    apply abs_integerPart_le
    push_cast at h3 ⊢
    exact h3
  have hk4 : ((k + 1 : ℕ) : ℤ) ≤ 4 := by exact_mod_cast hk
  rw [abs_le] at h4
  constructor
  · unfold addToIntSum addCoordinate addF32 intToF32
    apply floatToInt_of_fits
    · unfold INT_MIN; omega
    · unfold INT_MAX; omega
  · unfold addCoordinate
    rw [abs_le]
    constructor
    · have : (-(((k + 1 : ℕ) : ℤ) * 2 ^ 28) : ℤ) ≤ integerPart (roundF32 (roundF32 (s : ℚ) + c)) := h4.1
      exact_mod_cast this
    · exact_mod_cast h4.2

theorem foldl_addToIntSum_eq (V : Vision) (cs : List ℚ) : ∀ (s : ℤ) (k : ℕ),
    k + cs.length ≤ 4 → |(s : ℚ)| ≤ (k : ℚ) * 2 ^ 28 → (∀ c ∈ cs, |c| ≤ 2 ^ 28) →
    cs.foldl (addToIntSum V) s = cs.foldl addCoordinate s := by
  induction cs with
  | nil => intro s k _ _ _; rfl
  | cons c rest ih =>
    intro s k hk hs hc
    simp only [List.length_cons] at hk
    obtain ⟨e, hb⟩ := addToIntSum_eq V s c k (by omega) hs (hc c (List.mem_cons_self _ _))
    simp only [List.foldl_cons, e]
    exact ih _ (k + 1) (by omega) hb fun c' hc' => hc c' (List.mem_cons_of_mem _ hc')

theorem addCoordinate_mem (s : ℤ) (c : ℚ) (h1 : -2 ^ 24 < s + ⌊c⌋) (h2 : s + ⌈c⌉ < 2 ^ 24)
    (h3 : -2 ^ 24 < s) (h4 : s < 2 ^ 24) :
    s + ⌊c⌋ ≤ addCoordinate s c ∧ addCoordinate s c ≤ s + ⌈c⌉ := by
  unfold addCoordinate
  rw [roundF32_intCast_small s h3 h4]
  have hf : ⌊c⌋ ≤ ⌈c⌉ := Int.floor_le_ceil c
  apply integerPart_mem
  · have := roundF32_mono (a := ((s + ⌊c⌋ : ℤ) : ℚ)) (b := (s : ℚ) + c)
      (by push_cast; linarith [Int.floor_le c])
    rwa [roundF32_intCast_small _ h1 (by omega)] at this
  · have := roundF32_mono (a := (s : ℚ) + c) (b := ((s + ⌈c⌉ : ℤ) : ℚ))
      (by push_cast; linarith [Int.le_ceil c])
    rwa [roundF32_intCast_small _ (by omega) h2] at this

theorem floor_ceil_bounds {c : ℚ} (hc : |c| ≤ 2 ^ 21) :
    -2 ^ 21 ≤ ⌊c⌋ ∧ ⌊c⌋ ≤ 2 ^ 21 ∧ -2 ^ 21 ≤ ⌈c⌉ ∧ ⌈c⌉ ≤ 2 ^ 21 := by
  rw [abs_le] at hc
  refine ⟨?_, ?_, ?_, ?_⟩
  · exact Int.le_floor.mpr (by push_cast; exact hc.1)
  · have : ((⌊c⌋ : ℤ) : ℚ) ≤ ((2 ^ 21 : ℤ) : ℚ) := by
      push_cast; exact le_trans (Int.floor_le c) hc.2
    exact_mod_cast this
  · have : ((-2 ^ 21 : ℤ) : ℚ) ≤ ((⌈c⌉ : ℤ) : ℚ) := by
      push_cast; exact le_trans hc.1 (Int.le_ceil c)
    exact_mod_cast this
  · exact Int.ceil_le.mpr (by push_cast; exact hc.2)

theorem foldl_addCoordinate_mem (cs : List ℚ) : ∀ s : ℤ,
    |s| + 2 ^ 21 * (cs.length : ℤ) < 2 ^ 24 → (∀ c ∈ cs, |c| ≤ 2 ^ 21) →
    s + (cs.map Int.floor).sum ≤ cs.foldl addCoordinate s ∧
    cs.foldl addCoordinate s ≤ s + (cs.map Int.ceil).sum := by
  induction cs with
  | nil => intro s _ _; simp
  | cons c rest ih =>
    intro s hs hc
    obtain ⟨b1, b2, b3, b4⟩ := floor_ceil_bounds (hc c (List.mem_cons_self _ _))
    simp only [List.length_cons, Nat.cast_add, Nat.cast_one] at hs
    have hl : (0 : ℤ) ≤ (rest.length : ℤ) := Int.natCast_nonneg _
    have habs := abs_le.mp (le_refl |s|)
    obtain ⟨m1, m2⟩ := addCoordinate_mem s c (by omega) (by omega) (by omega) (by omega)
    have hnext : |addCoordinate s c| + 2 ^ 21 * (rest.length : ℤ) < 2 ^ 24 := by
      have : |addCoordinate s c| ≤ |s| + 2 ^ 21 := by
        rw [abs_le]; constructor <;> omega
      omega
    obtain ⟨i1, i2⟩ := ih (addCoordinate s c) hnext fun c' hc' => hc c' (List.mem_cons_of_mem _ hc')
    simp only [List.foldl_cons, List.map_cons, List.sum_cons]
    constructor <;> omega

theorem sum_floor_ceil_bounds (cs : List ℚ) :
    cs.sum - (cs.length : ℚ) ≤ (((cs.map Int.floor).sum : ℤ) : ℚ) ∧
    (((cs.map Int.ceil).sum : ℤ) : ℚ) ≤ cs.sum + (cs.length : ℚ) := by
  induction cs with
  | nil => simp
  | cons c rest ih =>
    simp only [List.sum_cons, List.map_cons, List.length_cons, Int.cast_add, Nat.cast_add,
      Nat.cast_one]
    have h1 := (Int.sub_one_lt_floor c).le
    have h2 := (Int.ceil_lt_add_one c).le
    constructor <;> linarith [ih.1, ih.2]

theorem integerPart_near (y : ℚ) : y - 1 < integerPart y ∧ (integerPart y : ℚ) < y + 1 := by
  unfold integerPart
  split_ifs with h
  · exact ⟨Int.sub_one_lt_floor y, lt_of_le_of_lt (Int.floor_le y) (by linarith)⟩
  · exact ⟨lt_of_lt_of_le (by linarith) (Int.le_ceil y), Int.ceil_lt_add_one y⟩

theorem truncatedCentre_near_mean (cs : List ℚ) (hl : cs.length = 4)
    (hc : ∀ c ∈ cs, |c| ≤ 2 ^ 21) :
    exactMean cs - 2 < truncatedCentre cs ∧ (truncatedCentre cs : ℚ) < exactMean cs + 2 := by
  obtain ⟨h1, h2⟩ := foldl_addCoordinate_mem cs 0 (by rw [hl]; norm_num) hc
  obtain ⟨h3, h4⟩ := sum_floor_ceil_bounds cs
  obtain ⟨h5, h6⟩ := integerPart_near (((cs.foldl addCoordinate 0 : ℤ) : ℚ) / 4)
  rw [hl] at h3 h4
  have g1 : (((cs.map Int.floor).sum : ℤ) : ℚ) ≤ ((cs.foldl addCoordinate 0 : ℤ) : ℚ) := by
    have : (cs.map Int.floor).sum ≤ cs.foldl addCoordinate 0 := by omega
    exact_mod_cast this
  have g2 : ((cs.foldl addCoordinate 0 : ℤ) : ℚ) ≤ (((cs.map Int.ceil).sum : ℤ) : ℚ) := by
    have : cs.foldl addCoordinate 0 ≤ (cs.map Int.ceil).sum := by omega
    exact_mod_cast this
  unfold exactMean truncatedCentre
  rw [hl]
  simp only [Nat.cast_ofNat] at h3 h4 ⊢
  constructor <;> linarith

theorem doMatching_accepts (V : Vision) (s s1 : State) (imageIndex : ℤ)
    (h : doMatching V s imageIndex = some (true, s1)) :
    ∃ descriptors rule1 keypoints points1 points2,
      vecAt? s.m_trainImagesDescriptors imageIndex = some descriptors ∧
      filter1 KNN_MATCHES_SIMILARITY_FACTOR (V.knnMatch descriptors s.m_queryImageDescriptors)
        = some rule1 ∧
      vecAt? s.m_trainImagesKeypoints imageIndex = some keypoints ∧
      matchedPoints keypoints (fun m => m.queryIdx) (filter2 rule1) = some points1 ∧
      matchedPoints s.m_queryImageKeypoints (fun m => m.trainIdx) (filter2 rule1)
        = some points2 ∧
      (V.findHomography points1 points2).1.empty = false ∧
      REQUIRED_INLIERS ≤ inlierPercentage (V.findHomography points1 points2).2 ∧
      s1 = { s with m_H := (V.findHomography points1 points2).1 } := by
  unfold doMatching at h
  cases hd : vecAt? s.m_trainImagesDescriptors imageIndex with
  | none => simp [hd] at h
  | some d =>
    simp only [hd] at h
    cases hf : filter1 KNN_MATCHES_SIMILARITY_FACTOR (V.knnMatch d s.m_queryImageDescriptors) with
    | none => simp [hf] at h
    | some good =>
      simp only [hf] at h
      split_ifs at h with h1 h2
      · simp at h
      · simp at h
      · cases hk : vecAt? s.m_trainImagesKeypoints imageIndex with
        | none => simp [hk] at h
        | some kps =>
          simp only [hk] at h
          split at h
          · rename_i p1 p2 hp1 hp2
            split_ifs at h with h3 h4
            · simp only [Option.some.injEq, Prod.mk.injEq, true_and] at h
              exact ⟨d, good, kps, p1, p2, rfl, hf, rfl, hp1, hp2, by simpa using h3, h4, h.symm⟩
            · simp at h
            · simp at h
          · simp at h

theorem reportPose_outputs (V : Vision) (s1 : State) (fi w h : ℤ) (g : Mat) (o o1 : Output)
    (hr : reportPose V s1 fi w h g o = some o1) :
    ∃ image, vecAt? s1.m_trainImages fi = some image ∧
      o1.rotData = (getRot V ((trainCorners image).map (V.perspectivePoint s1.m_H))
        (trainCorners image) g.cols g.rows).data.take 9 ∧
      (o1.centerX, o1.centerY) = centerOfMass V ((trainCorners image).map (V.perspectivePoint s1.m_H))
        (divF32 (intToF32 w) (intToF32 g.cols)) (divF32 (intToF32 h) (intToF32 g.rows)) := by
  unfold reportPose at hr
  cases hi : vecAt? s1.m_trainImages fi with
  | none => simp [hi] at hr
  | some image =>
    cases hpg : vecAt? s1.m_imagePages fi with
    | none => simp [hi, hpg] at hr
    | some page =>
      simp only [hi, hpg, Option.some.injEq] at hr
      refine ⟨image, rfl, ?_, ?_⟩
      · rw [← hr]
      · rw [← hr]

theorem scaledCorners_eq (V : Vision) (H image : Mat) (w h cols rows : ℤ) :
    scaledCorners ((trainCorners image).map (V.perspectivePoint H))
      (divF32 (intToF32 w) (intToF32 cols)) (divF32 (intToF32 h) (intToF32 rows))
    = rescaledProjectedCorners V H image w h cols rows := by
  simp [scaledCorners, trainCorners, rescaledProjectedCorners, mulF32, divF32, intToF32]

theorem centerOfMass_eq (V : Vision) (corners : List Point2f) (xScale yScale : ℚ) :
    centerOfMass V corners xScale yScale =
      (Int.tdiv (((scaledCorners corners xScale yScale).map fun p => p.x).foldl (addToIntSum V) 0) 4,
       Int.tdiv (((scaledCorners corners xScale yScale).map fun p => p.y).foldl (addToIntSum V) 0) 4) := by
  simp only [centerOfMass, List.foldl_map]

theorem rescaledProjectedCorners_length (V : Vision) (H image : Mat) (w h cols rows : ℤ) :
    (rescaledProjectedCorners V H image w h cols rows).length = 4 := by
  simp [rescaledProjectedCorners]

theorem tdiv_foldl_eq_truncatedCentre (V : Vision) (cs : List ℚ) (hl : cs.length = 4)
    (hc : ∀ c ∈ cs, |c| ≤ 2 ^ 28) :
    Int.tdiv (cs.foldl (addToIntSum V) 0) 4 = truncatedCentre cs := by
  rw [foldl_addToIntSum_eq V cs 0 0 (by omega) (by simp) hc, tdiv_four]
  rfl

/-- With the answer of x86 to a conversion out of range, corners 1.5e9 apart make a sum of
    3e9, which the conversion turns into `INT_MIN`: the centre is `INT_MIN / 4` on both axes. -/
theorem centerOfMass_beyond_int :
    centerOfMass toyVision
      [⟨0, 0⟩, ⟨1500000000, 0⟩, ⟨1500000000, -1500000000⟩, ⟨0, -1500000000⟩] 1 1
      = (-536870912, -536870912) := by decide!

/-! ### The claims -/

/-- C10: a call of `processImage` while the library is not initialized writes `-1` to
    `foundPage` and does nothing else: no call of `doMatching`, every global (tracker
    state, homography, registry, query keypoints and descriptors) and the outputs
    `centerX`, `centerY` and `rotData` are as before the call. -/
theorem processImage_not_initialized (V : Vision) (s : State) (queryImage : List ℚ)
    (width height : ℤ) (out : Output) (h : s.m_initialized = false) :
    processImage V s queryImage width height out
      = ⟨[], -1, some (s, { out with foundPage := -1 })⟩ := by
  simp [processImage, h]

/-- C10, at the initial globals with a 360×360 frame. -/
theorem processImage_not_initialized_witness :
    State.initial.m_initialized = false ∧
    processImage toyVision State.initial [1] 360 360 out0
      = ⟨[], -1, some (State.initial, { out0 with foundPage := -1 })⟩ :=
  ⟨rfl, processImage_not_initialized toyVision State.initial [1] 360 360 out0 rfl⟩

/-- C2: `removeImages` empties the registry and clears `m_initialized`, and leaves
    `m_predictedImage` and `m_predictionCount` as they were; after image 1 was found and
    then missed once, the cleared library still predicts image 1 with 2 attempts left. -/
theorem removeImages_keeps_tracker :
    (∀ s : State, (removeImages s).m_predictedImage = s.m_predictedImage ∧
      (removeImages s).m_predictionCount = s.m_predictionCount) ∧
    (runCalls toyVision State.initial
        [.addImage [1] 240 240 7, .addImage [2] 240 240 8, .initScan,
         .processImage (toyFrame 2), .processImage (toyFrame 1), .removeImages]).map
      (fun s => (s.m_trainImageNum, s.m_trainImages.length, s.m_initialized,
        s.m_predictedImage, s.m_predictionCount))
      = some (0, 0, false, 1, 2) :=
  ⟨fun _ => ⟨rfl, rfl⟩, by decide!⟩

/-- C4: once `processImage` has accepted training image `p` in a frame, in each of the
    next `TOTAL_PREDICTION_ATTEMPTS - 1` frames, whatever `doMatching` answers, the only
    index passed to `doMatching` is `p`; a frame on which no call is made is one that
    returns before the matching (no keypoints, no descriptors). -/
theorem prediction_stickiness (V : Vision) (s sN : State) (f : FrameIn) (oN : Output) (p : ℤ)
    (fs : List FrameIn)
    (hf : (processFrame V s f).foundImage = p) (hp : p ≠ -1)
    (hr : (processFrame V s f).result = some (sN, oN))
    (hlen : (fs.length : ℤ) ≤ TOTAL_PREDICTION_ATTEMPTS - 1) :
    ∀ e ∈ runFrames V sN fs,
      e.2.2.calls = [p] ∨ (e.2.2.calls = [] ∧ reachesMatching V e.1 e.2.1 = false) := by
  obtain ⟨h1, h2⟩ := processFrame_accept_state V s sN f oN p hf hp hr
  exact predicting_frames V p hp fs sN h1 (by rw [h2]; omega) (by omega)

/-- C4, in the small instance: image 1 is found, then a frame showing image 0 and a frame
    showing image 1 follow; both frames call `doMatching` on image 1 alone. -/
theorem prediction_stickiness_witness :
    ((runFrames toyVision (toyDecay 0) [toyFrame 1, toyFrame 2]).all fun e =>
      decide (e.2.2.calls = [1] ∨
        (e.2.2.calls = [] ∧ reachesMatching toyVision e.1 e.2.1 = false))) = true ∧
    (runFrames toyVision (toyDecay 0) [toyFrame 1, toyFrame 2]).map (fun e => e.2.2.calls)
      = [[1], [1]] :=
  ⟨List.all_eq_true.mpr fun e he => decide_eq_true
      (prediction_stickiness toyVision (toyAfter toySetup) (toyDecay 0) (toyFrame 2)
        ⟨8, 120, 120, [1, 0, 0, 0, 1, 0, 0, 0, 1]⟩ 1 [toyFrame 1, toyFrame 2]
        (by decide!) (by decide) (by decide!) (by decide) e he),
   by decide!⟩

/-- C5: from globals with predicted image `p` and `TOTAL_PREDICTION_ATTEMPTS` attempts left,
    after three consecutive frames in each of which `doMatching p` is the one call made and
    rejects, a next frame that reaches the matching and accepts no candidate has called
    `doMatching` on every index `0, …, m_trainImageNum - 1`, in this order, and reports
    `foundPage = -1`. -/
theorem prediction_decay (V : Vision) (s0 s1 s2 s3 s4 : State) (f1 f2 f3 f4 : FrameIn)
    (o1 o2 o3 o4 : Output) (p : ℤ)
    (hp : s0.m_predictedImage = p) (hp1 : p ≠ -1)
    (hc : s0.m_predictionCount = TOTAL_PREDICTION_ATTEMPTS)
    (h1 : processFrame V s0 f1 = ⟨[p], -1, some (s1, o1)⟩)
    (h2 : processFrame V s1 f2 = ⟨[p], -1, some (s2, o2)⟩)
    (h3 : processFrame V s2 f3 = ⟨[p], -1, some (s3, o3)⟩)
    (h4 : reachesMatching V s3 f4 = true)
    (h5 : (processFrame V s3 f4).result = some (s4, o4))
    (h6 : (processFrame V s3 f4).foundImage = -1) :
    (processFrame V s3 f4).calls = (List.range s3.m_trainImageNum).map (fun i : ℕ => (i : ℤ)) ∧
    o4.foundPage = -1 := by
  obtain ⟨a1, b1⟩ := processFrame_rejected V s0 s1 f1 o1 p hp hp1 h1
  have c1 : s1.m_predictionCount = 2 := by rw [b1, hc]; rfl
  have d1 : s1.m_predictedImage = p := by rw [a1, if_neg (by rw [hc]; decide)]
  obtain ⟨a2, b2⟩ := processFrame_rejected V s1 s2 f2 o2 p d1 hp1 h2
  have c2 : s2.m_predictionCount = 1 := by rw [b2, c1]; rfl
  have d2 : s2.m_predictedImage = p := by rw [a2, if_neg (by rw [c1]; decide)]
  obtain ⟨a3, b3⟩ := processFrame_rejected V s2 s3 f3 o3 p d2 hp1 h3
  have d3 : s3.m_predictedImage = -1 := by rw [a3, if_pos (by rw [c2]; decide)]
  rw [processFrame_scan V s3 f4 h4 d3] at h5 h6 ⊢
  rcases hs : scanLoop V (List.range s3.m_trainImageNum)
      (withQuery V s3 f4.queryImage f4.width f4.height) with ⟨calls, _ | ⟨fi, s5⟩⟩
  · simp [hs] at h5
  · simp only [hs] at h5 h6 ⊢
    by_cases hfi : fi ≠ -1
    · simp only [if_pos hfi] at h6
      exact absurd h6 hfi
    · simp only [if_neg hfi] at h5 ⊢
      have hfi2 : fi = -1 := by
        by_contra hne
        exact hfi hne
      subst hfi2
      obtain ⟨h7, _⟩ := scanLoop_none_found V _ _ _ _ hs d3
      simp only [Option.some.injEq, Prod.mk.injEq] at h5
      refine ⟨h7, ?_⟩
      rw [← h5.2]

/-- C5, in the small instance: image 1 is predicted, three frames show image 0, a fourth
    frame shows an image that is not registered; both registered indices are tried. -/
theorem prediction_decay_witness :
    ((processFrame toyVision (toyDecay 3) (toyFrame 3)).calls
      = (List.range (toyDecay 3).m_trainImageNum).map (fun i : ℕ => (i : ℤ)) ∧
     outNone.foundPage = -1) ∧
    (processFrame toyVision (toyDecay 3) (toyFrame 3)).calls = [0, 1] :=
  ⟨prediction_decay toyVision (toyDecay 0) (toyDecay 1) (toyDecay 2) (toyDecay 3)
    (toyAfter (toySetup ++ [.processImage (toyFrame 2), .processImage (toyFrame 1),
      .processImage (toyFrame 1), .processImage (toyFrame 1), .processImage (toyFrame 3)]))
    (toyFrame 1) (toyFrame 1) (toyFrame 1) (toyFrame 3) outNone outNone outNone outNone 1
    (by decide!) (by decide) (by decide!) (by decide!) (by decide!) (by decide!) (by decide!)
    (by decide!) (by decide!), by decide!⟩

/-- C9: `doMatching` leaves `m_H` as it was whenever it answers "not found"; and in every
    call of `processImage` that finds an image (in particular every call that reports a
    page other than `-1`), the last call of `doMatching` is the one on the found image; it
    ran on this frame's keypoints and descriptors, estimated a matrix from the
    correspondences that passed both filters (`points1`, `points2`), found it non-empty
    with enough inliers, and stored it; that matrix is the `m_H` the call leaves behind, and
    the rotation and the centre written to the outputs are computed from the corners of the
    found image projected through it, next to the page of that image. -/
theorem homography_never_stale (V : Vision) :
    (∀ (t t1 : State) (i : ℤ), doMatching V t i = some (false, t1) → t1.m_H = t.m_H) ∧
    (∀ (s s1 : State) (f : FrameIn) (o1 : Output),
      (processFrame V s f).result = some (s1, o1) →
      ((processFrame V s f).foundImage ≠ -1 ∨ o1.foundPage ≠ -1) →
      ∃ descriptors rule1 keypoints points1 points2 image,
        vecAt? (withQuery V s f.queryImage f.width f.height).m_trainImagesDescriptors
          (processFrame V s f).foundImage = some descriptors ∧
        filter1 KNN_MATCHES_SIMILARITY_FACTOR (V.knnMatch descriptors
          (withQuery V s f.queryImage f.width f.height).m_queryImageDescriptors) = some rule1 ∧
        vecAt? (withQuery V s f.queryImage f.width f.height).m_trainImagesKeypoints
          (processFrame V s f).foundImage = some keypoints ∧
        matchedPoints keypoints (fun m => m.queryIdx) (filter2 rule1) = some points1 ∧
        matchedPoints (withQuery V s f.queryImage f.width f.height).m_queryImageKeypoints
          (fun m => m.trainIdx) (filter2 rule1) = some points2 ∧
        (V.findHomography points1 points2).1.empty = false ∧
        REQUIRED_INLIERS ≤ inlierPercentage (V.findHomography points1 points2).2 ∧
        doMatching V (withQuery V s f.queryImage f.width f.height) (processFrame V s f).foundImage
          = some (true, { withQuery V s f.queryImage f.width f.height with
                          m_H := (V.findHomography points1 points2).1 }) ∧
        (processFrame V s f).calls.getLast? = some (processFrame V s f).foundImage ∧
        s1.m_H = (V.findHomography points1 points2).1 ∧
        vecAt? s.m_trainImages (processFrame V s f).foundImage = some image ∧
        vecAt? s.m_imagePages (processFrame V s f).foundImage = some o1.foundPage ∧
        o1.rotData = (getRot V
          ((trainCorners image).map (V.perspectivePoint (V.findHomography points1 points2).1))
          (trainCorners image)
          (grayResized V f.queryImage f.width f.height QUERY_IMAGE_REQUIRED_SIZE).cols
          (grayResized V f.queryImage f.width f.height QUERY_IMAGE_REQUIRED_SIZE).rows).data.take 9 ∧
        (o1.centerX, o1.centerY) = centerOfMass V
          ((trainCorners image).map (V.perspectivePoint (V.findHomography points1 points2).1))
          (divF32 (intToF32 f.width) (intToF32
            (grayResized V f.queryImage f.width f.height QUERY_IMAGE_REQUIRED_SIZE).cols))
          (divF32 (intToF32 f.height) (intToF32
            (grayResized V f.queryImage f.width f.height QUERY_IMAGE_REQUIRED_SIZE).rows))) := by
  refine ⟨fun t t1 i h => by rw [doMatching_false V t t1 i h], ?_⟩
  intro s s1 f o1 hr hf
  have hf2 : (processFrame V s f).foundImage ≠ -1 := by
    rcases hf with hf | hf
    · exact hf
    · intro h
      have := processFrame_none_found V s s1 f o1 hr h
      rw [this] at hf
      exact hf rfl
  obtain ⟨p1, p2, h1, h2, h3, h4, h5, h6⟩ := processFrame_found V s s1 f o1 hr hf2
  obtain ⟨d, r, k, q1, q2, a1, a2, a3, a4, a5, a6, a7, a8⟩ := doMatching_accepts V _ _ _ h1
  have hH : (V.findHomography p1 p2).1 = (V.findHomography q1 q2).1 :=
    congrArg State.m_H a8
  rw [hH] at h1 h3
  obtain ⟨image, hi, hrot, hc⟩ := reportPose_outputs V s1 _ _ _ _ _ o1 h6
  have hpage := reportPose_page V s1 _ _ _ _ _ o1 h6
  rw [h3] at hrot hc
  rw [h4] at hi
  rw [h5] at hpage
  exact ⟨d, r, k, q1, q2, image, a1, a2, a3, a4, a5, a6, a7, h1, h2, h3, hi, hpage, hrot, hc⟩

/-- C9, in the small instance: `doMatching` rejects image 0 on the frame that shows image 1
    and keeps the stored translation; and the frame that finds image 1, before which `m_H`
    was empty, stores the translation estimated on that frame and reports the pose computed
    through it. -/
theorem homography_never_stale_witness :
    (doMatching toyVision (toyDecay 0) 0 = some (false, toyDecay 0) ∧
      (toyDecay 0).m_H = (toyDecay 0).m_H) ∧
    (toyAfter toySetup).m_H = ⟨0, 0, []⟩ ∧
    (toyDecay 0).m_H = ⟨3, 3, [1, 0, 3 / 4, 0, 1, 3 / 4, 0, 0, 1]⟩ ∧
    ∃ descriptors rule1 keypoints points1 points2 image,
        vecAt? (withQuery toyVision (toyAfter toySetup) [2] 360 360).m_trainImagesDescriptors
          (processFrame toyVision (toyAfter toySetup) (toyFrame 2)).foundImage = some descriptors ∧
        filter1 KNN_MATCHES_SIMILARITY_FACTOR (toyVision.knnMatch descriptors
          (withQuery toyVision (toyAfter toySetup) [2] 360 360).m_queryImageDescriptors)
            = some rule1 ∧
        vecAt? (withQuery toyVision (toyAfter toySetup) [2] 360 360).m_trainImagesKeypoints
          (processFrame toyVision (toyAfter toySetup) (toyFrame 2)).foundImage = some keypoints ∧
        matchedPoints keypoints (fun m => m.queryIdx) (filter2 rule1) = some points1 ∧
        matchedPoints (withQuery toyVision (toyAfter toySetup) [2] 360 360).m_queryImageKeypoints
          (fun m => m.trainIdx) (filter2 rule1) = some points2 ∧
        (toyVision.findHomography points1 points2).1.empty = false ∧
        REQUIRED_INLIERS ≤ inlierPercentage (toyVision.findHomography points1 points2).2 ∧
        doMatching toyVision (withQuery toyVision (toyAfter toySetup) [2] 360 360)
            (processFrame toyVision (toyAfter toySetup) (toyFrame 2)).foundImage
          = some (true, { withQuery toyVision (toyAfter toySetup) [2] 360 360 with
                          m_H := (toyVision.findHomography points1 points2).1 }) ∧
        (processFrame toyVision (toyAfter toySetup) (toyFrame 2)).calls.getLast?
          = some (processFrame toyVision (toyAfter toySetup) (toyFrame 2)).foundImage ∧
        (toyDecay 0).m_H = (toyVision.findHomography points1 points2).1 ∧
        vecAt? (toyAfter toySetup).m_trainImages
          (processFrame toyVision (toyAfter toySetup) (toyFrame 2)).foundImage = some image ∧
        vecAt? (toyAfter toySetup).m_imagePages
          (processFrame toyVision (toyAfter toySetup) (toyFrame 2)).foundImage = some (8 : ℤ) ∧
        [1, 0, 0, 0, 1, 0, 0, 0, 1] = (getRot toyVision
          ((trainCorners image).map
            (toyVision.perspectivePoint (toyVision.findHomography points1 points2).1))
          (trainCorners image)
          (grayResized toyVision [2] 360 360 QUERY_IMAGE_REQUIRED_SIZE).cols
          (grayResized toyVision [2] 360 360 QUERY_IMAGE_REQUIRED_SIZE).rows).data.take 9 ∧
        ((120 : ℤ), (120 : ℤ)) = centerOfMass toyVision
          ((trainCorners image).map
            (toyVision.perspectivePoint (toyVision.findHomography points1 points2).1))
          (divF32 (intToF32 360) (intToF32
            (grayResized toyVision [2] 360 360 QUERY_IMAGE_REQUIRED_SIZE).cols))
          (divF32 (intToF32 360) (intToF32
            (grayResized toyVision [2] 360 360 QUERY_IMAGE_REQUIRED_SIZE).rows)) :=
  ⟨⟨by decide!,
    (homography_never_stale toyVision).1 (toyDecay 0) (toyDecay 0) 0 (by decide!)⟩,
   by decide!, by decide!,
   (homography_never_stale toyVision).2 (toyAfter toySetup) (toyDecay 0) (toyFrame 2)
     ⟨8, 120, 120, [1, 0, 0, 0, 1, 0, 0, 0, 1]⟩ (by decide!) (Or.inl (by decide!))⟩

/-- C1: image 0 is registered, scanned and found; `removeImages` and a second `initScan`
    then leave an initialized library with no training image that still predicts image 0,
    and the next frame with keypoints calls `doMatching 0`, which reads the empty
    `m_trainImagesDescriptors` out of bounds. -/
theorem empty_registry_stale_prediction :
    (runCalls toyVision State.initial
        [.addImage [1] 240 240 7, .initScan, .processImage (toyFrame 1), .removeImages,
         .initScan]).map
      (fun s => (s.m_trainImageNum, s.m_trainImages.length, s.m_trainImagesDescriptors.length,
        s.m_initialized, s.m_predictedImage))
      = some (0, 0, 0, true, 0) ∧
    (runCalls toyVision State.initial
        [.addImage [1] 240 240 7, .initScan, .processImage (toyFrame 1), .removeImages,
         .initScan]).map
      (fun s => ((processFrame toyVision s (toyFrame 1)).calls,
        (processFrame toyVision s (toyFrame 1)).result.isSome))
      = some ([0], false) := by
  constructor <;> decide!

/-- C8: image 0 is registered and scanned, image 1 is registered, and `initScan` runs
    again: two images are registered and three keypoint and descriptor sets are stored, and
    the descriptors at index 1 are those extracted from image 0, not those of image 1. -/
theorem initScan_twice_appends :
    (runCalls toyVision State.initial
        [.addImage [1] 240 240 7, .initScan, .addImage [2] 240 240 8, .initScan]).map
      (fun s => (s.m_trainImageNum, s.m_trainImages.length, s.m_trainImagesKeypoints.length,
        s.m_trainImagesDescriptors.length))
      = some (2, 2, 3, 3) ∧
    (runCalls toyVision State.initial
        [.addImage [1] 240 240 7, .initScan, .addImage [2] 240 240 8, .initScan]).map
      (fun s => (
        decide (vecAt? s.m_trainImagesDescriptors 1
          = (vecAt? s.m_trainImages 0).map fun image => (extractTraining toyVision image).2),
        decide (vecAt? s.m_trainImagesDescriptors 1
          = (vecAt? s.m_trainImages 1).map fun image => (extractTraining toyVision image).2)))
      = some (true, false) := by
  constructor <;> decide!

/-- C6: for a fixed result of `knnMatch` whose rows have one or two entries with
    non-negative distances, and similarity factors `0 ≤ f' ≤ f`, Filter 1 returns with both
    factors and the matches kept with `f'` are a sublist of those kept with `f`. -/
theorem filter1_monotone (f f' : ℚ) (tempMatches : List (List DMatch))
    (hrows : ∀ row ∈ tempMatches, row.length = 1 ∨ row.length = 2)
    (hdist : ∀ row ∈ tempMatches, ∀ m ∈ row, 0 ≤ m.distance)
    (hf' : 0 ≤ f') (hff : f' ≤ f) :
    ∃ good' good, filter1 f' tempMatches = some good' ∧ filter1 f tempMatches = some good ∧
      good'.Sublist good := by
  induction tempMatches with
  | nil => exact ⟨[], [], rfl, rfl, List.Sublist.refl _⟩
  | cons row rest ih =>
    obtain ⟨g', g, h1, h2, h3⟩ := ih (fun r hr => hrows r (List.mem_cons_of_mem _ hr))
      (fun r hr => hdist r (List.mem_cons_of_mem _ hr))
    have hrow := hrows row (List.mem_cons_self _ _)
    match row, hrow, hdist row (List.mem_cons_self _ _) with
    | [], hrow, _ => simp at hrow
    | [m], _, _ =>
      exact ⟨m :: g', m :: g, by simp [filter1, h1], by simp [filter1, h2], h3.cons₂ m⟩
    | [m1, m2], _, hd =>
      have hd2 : 0 ≤ m2.distance := hd m2 (by simp)
      have hmono := mulF32_mono_right hd2 hf' hff
      by_cases hk' : mulF32 m2.distance f' > m1.distance
      · have hk : mulF32 m2.distance f > m1.distance := lt_of_lt_of_le hk' hmono
        exact ⟨m1 :: g', m1 :: g, by simp [filter1, h1, hk'], by simp [filter1, h2, hk],
          h3.cons₂ m1⟩
      · by_cases hk : mulF32 m2.distance f > m1.distance
        · exact ⟨g', m1 :: g, by simp [filter1, h1, hk'], by simp [filter1, h2, hk],
            h3.cons m1⟩
        · exact ⟨g', g, by simp [filter1, h1, hk'], by simp [filter1, h2, hk], h3⟩
    | _ :: _ :: _ :: _, hrow, _ => simp at hrow

/-- C6, with the factors `1/2` and `0.9f` on three rows. -/
theorem filter1_monotone_witness :
    ∃ good' good,
      filter1 (1 / 2) [[⟨0, 0, 0, 5⟩, ⟨0, 1, 0, 6⟩], [⟨1, 2, 0, 5⟩, ⟨1, 3, 0, 100⟩], [⟨2, 4, 0, 3⟩]]
        = some good' ∧
      filter1 KNN_MATCHES_SIMILARITY_FACTOR
        [[⟨0, 0, 0, 5⟩, ⟨0, 1, 0, 6⟩], [⟨1, 2, 0, 5⟩, ⟨1, 3, 0, 100⟩], [⟨2, 4, 0, 3⟩]]
        = some good ∧
      good'.Sublist good :=
  filter1_monotone KNN_MATCHES_SIMILARITY_FACTOR (1 / 2)
    [[⟨0, 0, 0, 5⟩, ⟨0, 1, 0, 6⟩], [⟨1, 2, 0, 5⟩, ⟨1, 3, 0, 100⟩], [⟨2, 4, 0, 3⟩]]
    (by decide) (by decide!) (by decide!) (by decide!)

/-- C3: `doMatching` answers "found" exactly when its vector reads are in bounds, at least
    one match survives Filter 1, at least `REQUIRED_MATCHES` survive Filter 2, the matrix
    `findHomography` returns is not empty, and `inlierPercentage`, the `float` quotient of
    the number of nonzero mask rows by the number of mask rows, is at least
    `REQUIRED_INLIERS`.  For a mask of at most 932067 rows that last test is the exact
    comparison `13 * rows ≤ 20 * inliers`, that is `inliers / rows ≥ 0.65`: 13 inliers of
    20 pass, and every quotient below 0.65 fails. -/
theorem doMatching_found_iff (V : Vision) (s : State) (imageIndex : ℤ) :
    ((∃ s1, doMatching V s imageIndex = some (true, s1)) ↔
      ∃ descriptors rule1 keypoints points1 points2,
        vecAt? s.m_trainImagesDescriptors imageIndex = some descriptors ∧
        filter1 KNN_MATCHES_SIMILARITY_FACTOR (V.knnMatch descriptors s.m_queryImageDescriptors)
          = some rule1 ∧
        1 ≤ rule1.length ∧
        REQUIRED_MATCHES ≤ (filter2 rule1).length ∧
        vecAt? s.m_trainImagesKeypoints imageIndex = some keypoints ∧
        matchedPoints keypoints (fun m => m.queryIdx) (filter2 rule1) = some points1 ∧
        matchedPoints s.m_queryImageKeypoints (fun m => m.trainIdx) (filter2 rule1)
          = some points2 ∧
        (V.findHomography points1 points2).1.empty = false ∧
        REQUIRED_INLIERS ≤ inlierPercentage (V.findHomography points1 points2).2) ∧
    (∀ mask : List ℕ, 0 < mask.length → mask.length ≤ 932067 →
      (REQUIRED_INLIERS ≤ inlierPercentage mask ↔
        13 * mask.length ≤ 20 * (mask.filter fun v => v ≠ 0).length)) := by
  refine ⟨doMatching_true_iff V s imageIndex, fun mask h1 h2 => ?_⟩
  exact inlier_test _ _ h1 (List.length_filter_le _ _) h2

/-- C3, in the small instance: image 1 is found on a frame that shows it, and a mask with
    13 nonzero rows of 20 passes the inlier test. -/
theorem doMatching_found_iff_witness :
    (∃ descriptors rule1 keypoints points1 points2,
        vecAt? (withQuery toyVision (toyAfter toySetup) [2] 360 360).m_trainImagesDescriptors 1
          = some descriptors ∧
        filter1 KNN_MATCHES_SIMILARITY_FACTOR (toyVision.knnMatch descriptors
          (withQuery toyVision (toyAfter toySetup) [2] 360 360).m_queryImageDescriptors)
          = some rule1 ∧
        1 ≤ rule1.length ∧
        REQUIRED_MATCHES ≤ (filter2 rule1).length ∧
        vecAt? (withQuery toyVision (toyAfter toySetup) [2] 360 360).m_trainImagesKeypoints 1
          = some keypoints ∧
        matchedPoints keypoints (fun m => m.queryIdx) (filter2 rule1) = some points1 ∧
        matchedPoints (withQuery toyVision (toyAfter toySetup) [2] 360 360).m_queryImageKeypoints
          (fun m => m.trainIdx) (filter2 rule1) = some points2 ∧
        (toyVision.findHomography points1 points2).1.empty = false ∧
        REQUIRED_INLIERS ≤ inlierPercentage (toyVision.findHomography points1 points2).2) ∧
    REQUIRED_INLIERS ≤ inlierPercentage (List.replicate 13 1 ++ List.replicate 7 0) :=
  ⟨(doMatching_found_iff toyVision (withQuery toyVision (toyAfter toySetup) [2] 360 360) 1).1.mp
      ⟨{ withQuery toyVision (toyAfter toySetup) [2] 360 360 with
          m_H := ⟨3, 3, [1, 0, 3 / 4, 0, 1, 3 / 4, 0, 0, 1]⟩ }, by decide!⟩,
   ((doMatching_found_iff toyVision State.initial 0).2
      (List.replicate 13 1 ++ List.replicate 7 0) (by decide) (by decide)).mpr (by decide)⟩

/-- C7, as stated, fails: in the small instance a 1800×900 frame, resized to 720×360 so
    that both ratios of original to resized dimension are 5/2, finds image 1 (page 8); the
    four rescaled projected corners have the abscissas 15/8, 4815/8, 4815/8, 15/8 with mean
    301.875, whose nearest integer is 302, and `centerX` is 301; the same holds for
    `centerY`. -/
theorem center_not_rounded_mean :
    (processFrame toyVision (toyAfter toySetup) (toyWideFrame 2)).result
      = some (toyDecay 0, ⟨8, 301, 301, [1, 0, 0, 0, 1, 0, 0, 0, 1]⟩) ∧
    (processFrame toyVision (toyAfter toySetup) (toyWideFrame 2)).foundImage = 1 ∧
    vecAt? (toyAfter toySetup).m_trainImages 1 = some ⟨240, 240, [2]⟩ ∧
    (grayResized toyVision [2] 1800 900 QUERY_IMAGE_REQUIRED_SIZE).cols = 720 ∧
    (grayResized toyVision [2] 1800 900 QUERY_IMAGE_REQUIRED_SIZE).rows = 360 ∧
    rescaledProjectedCorners toyVision (toyDecay 0).m_H ⟨240, 240, [2]⟩ 1800 900 720 360
      = [⟨15 / 8, 15 / 8⟩, ⟨4815 / 8, 15 / 8⟩, ⟨4815 / 8, 4815 / 8⟩, ⟨15 / 8, 4815 / 8⟩] ∧
    exactMean [15 / 8, 4815 / 8, 4815 / 8, 15 / 8] = 2415 / 8 ∧
    exactMean [15 / 8, 15 / 8, 4815 / 8, 4815 / 8] = 2415 / 8 ∧
    roundedMean [15 / 8, 4815 / 8, 4815 / 8, 15 / 8] = 302 ∧
    roundedMean [15 / 8, 15 / 8, 4815 / 8, 4815 / 8] = 302 ∧
    (301 : ℤ) ≠ roundedMean [15 / 8, 4815 / 8, 4815 / 8, 15 / 8] ∧
    (301 : ℤ) ≠ roundedMean [15 / 8, 15 / 8, 4815 / 8, 4815 / 8] := by
  refine ⟨by decide!, by decide!, by decide!, by decide!, by decide!, by decide!, by decide!,
    by decide!, by decide!, by decide!, by decide!, by decide!⟩

/-- C7, amended: in every call of `processImage` that finds an image (in particular every
    call that reports a page other than `-1`), let `corners` be the four corners of the found
    image projected through the stored homography and rescaled, each axis by its ratio of
    original to resized frame dimension.  While the abscissas are at most `2^28` in absolute
    value, `centerX` is their truncated centre: they are added one at a time to an integer
    total, each sum rounded to a `float` and cut to its integer part, and the integer part
    of a quarter of the total is taken.  While they are at most `2^21`, `centerX` is less
    than 2 away from their exact mean.  The same holds of `centerY` and the ordinates.
    Beyond `2^28` the `int` total can leave its range, and nothing is said. -/
theorem center_truncated_mean (V : Vision) (s s1 : State) (f : FrameIn) (o1 : Output)
    (hr : (processFrame V s f).result = some (s1, o1))
    (hf : (processFrame V s f).foundImage ≠ -1 ∨ o1.foundPage ≠ -1) :
    ∃ image corners,
      vecAt? s.m_trainImages (processFrame V s f).foundImage = some image ∧
      corners = rescaledProjectedCorners V s1.m_H image f.width f.height
        (grayResized V f.queryImage f.width f.height QUERY_IMAGE_REQUIRED_SIZE).cols
        (grayResized V f.queryImage f.width f.height QUERY_IMAGE_REQUIRED_SIZE).rows ∧
      ((∀ p ∈ corners, |p.x| ≤ 2 ^ 28) →
        o1.centerX = truncatedCentre (corners.map fun p => p.x)) ∧
      ((∀ p ∈ corners, |p.y| ≤ 2 ^ 28) →
        o1.centerY = truncatedCentre (corners.map fun p => p.y)) ∧
      ((∀ p ∈ corners, |p.x| ≤ 2 ^ 21) →
        exactMean (corners.map fun p => p.x) - 2 < o1.centerX ∧
        (o1.centerX : ℚ) < exactMean (corners.map fun p => p.x) + 2) ∧
      ((∀ p ∈ corners, |p.y| ≤ 2 ^ 21) →
        exactMean (corners.map fun p => p.y) - 2 < o1.centerY ∧
        (o1.centerY : ℚ) < exactMean (corners.map fun p => p.y) + 2) := by
  have hf2 : (processFrame V s f).foundImage ≠ -1 := by
    rcases hf with hf | hf
    · exact hf
    · intro h
      have := processFrame_none_found V s s1 f o1 hr h
      rw [this] at hf
      exact hf rfl
  obtain ⟨_, _, _, _, _, hti, _, h⟩ := processFrame_found V s s1 f o1 hr hf2
  obtain ⟨image, hi, _, hc⟩ := reportPose_outputs V s1 _ _ _ _ _ o1 h
  rw [centerOfMass_eq, scaledCorners_eq, Prod.mk.injEq] at hc
  obtain ⟨hx, hy⟩ := hc
  have hl := rescaledProjectedCorners_length V s1.m_H image f.width f.height
    (grayResized V f.queryImage f.width f.height QUERY_IMAGE_REQUIRED_SIZE).cols
    (grayResized V f.queryImage f.width f.height QUERY_IMAGE_REQUIRED_SIZE).rows
  have wide : ∀ c : ℚ, |c| ≤ 2 ^ 21 → |c| ≤ 2 ^ 28 := fun c h => le_trans h (by norm_num)
  have ex : ∀ (g : Point2f → ℚ) (cs : List Point2f), cs.length = 4 →
      (∀ p ∈ cs, |g p| ≤ 2 ^ 28) →
      Int.tdiv ((cs.map g).foldl (addToIntSum V) 0) 4 = truncatedCentre (cs.map g) := by
    intro g cs hcs hg
    apply tdiv_foldl_eq_truncatedCentre V _ (by rw [List.length_map]; exact hcs)
    intro c hc
    obtain ⟨p, hp, rfl⟩ := List.mem_map.mp hc
    exact hg p hp
  have near : ∀ (g : Point2f → ℚ) (cs : List Point2f), cs.length = 4 →
      (∀ p ∈ cs, |g p| ≤ 2 ^ 21) →
      exactMean (cs.map g) - 2 < truncatedCentre (cs.map g) ∧
      (truncatedCentre (cs.map g) : ℚ) < exactMean (cs.map g) + 2 := by
    intro g cs hcs hg
    apply truncatedCentre_near_mean _ (by rw [List.length_map]; exact hcs)
    intro c hc
    obtain ⟨p, hp, rfl⟩ := List.mem_map.mp hc
    exact hg p hp
  refine ⟨image, _, by rw [← hti]; exact hi, rfl, ?_, ?_, ?_, ?_⟩
  · intro hb
    rw [hx]
    exact ex (fun p => p.x) _ hl hb
  · intro hb
    rw [hy]
    exact ex (fun p => p.y) _ hl hb
  · intro hb
    rw [hx, ex (fun p => p.x) _ hl fun p hp => wide _ (hb p hp)]
    exact near (fun p => p.x) _ hl hb
  · intro hb
    rw [hy, ex (fun p => p.y) _ hl fun p hp => wide _ (hb p hp)]
    exact near (fun p => p.y) _ hl hb

/-- C7 amended, in the small instance: on the 1800×900 frame that finds image 1 the
    rescaled coordinates are far below `2^21`, so `centerX = centerY = 301` is the truncated
    centre of the abscissas and of the ordinates, and is less than 2 away from their mean
    301.875. -/
theorem center_truncated_mean_witness :
    (∀ p ∈ rescaledProjectedCorners toyVision (toyDecay 0).m_H ⟨240, 240, [2]⟩ 1800 900 720 360,
      |p.x| ≤ 2 ^ 21 ∧ |p.y| ≤ 2 ^ 21) ∧
    (301 : ℤ) = truncatedCentre
      ((rescaledProjectedCorners toyVision (toyDecay 0).m_H ⟨240, 240, [2]⟩ 1800 900 720 360).map
        fun p => p.x) ∧
    (301 : ℤ) = truncatedCentre
      ((rescaledProjectedCorners toyVision (toyDecay 0).m_H ⟨240, 240, [2]⟩ 1800 900 720 360).map
        fun p => p.y) ∧
    (exactMean ((rescaledProjectedCorners toyVision (toyDecay 0).m_H ⟨240, 240, [2]⟩
        1800 900 720 360).map fun p => p.x) - 2 < ((301 : ℤ) : ℚ) ∧
      ((301 : ℤ) : ℚ) < exactMean ((rescaledProjectedCorners toyVision (toyDecay 0).m_H
        ⟨240, 240, [2]⟩ 1800 900 720 360).map fun p => p.x) + 2) ∧
    (exactMean ((rescaledProjectedCorners toyVision (toyDecay 0).m_H ⟨240, 240, [2]⟩
        1800 900 720 360).map fun p => p.y) - 2 < ((301 : ℤ) : ℚ) ∧
      ((301 : ℤ) : ℚ) < exactMean ((rescaledProjectedCorners toyVision (toyDecay 0).m_H
        ⟨240, 240, [2]⟩ 1800 900 720 360).map fun p => p.y) + 2) := by
  obtain ⟨image, corners, hi, hc, hx, hy, hmx, hmy⟩ :=
    center_truncated_mean toyVision (toyAfter toySetup) (toyDecay 0) (toyWideFrame 2)
      ⟨8, 301, 301, [1, 0, 0, 0, 1, 0, 0, 0, 1]⟩ (by decide!) (Or.inl (by decide!))
  have himg : image = ⟨240, 240, [2]⟩ := by
    have h : vecAt? (toyAfter toySetup).m_trainImages
        (processFrame toyVision (toyAfter toySetup) (toyWideFrame 2)).foundImage
        = some ⟨240, 240, [2]⟩ := by decide!
    rw [h] at hi
    exact (Option.some.inj hi).symm
  subst himg
  have hcc : corners
      = rescaledProjectedCorners toyVision (toyDecay 0).m_H ⟨240, 240, [2]⟩ 1800 900 720 360 := by
    rw [hc]
    decide!
  subst hcc
  have hb : ∀ p ∈ rescaledProjectedCorners toyVision (toyDecay 0).m_H ⟨240, 240, [2]⟩
      1800 900 720 360, |p.x| ≤ 2 ^ 21 ∧ |p.y| ≤ 2 ^ 21 := by decide!
  have wide : ∀ c : ℚ, |c| ≤ 2 ^ 21 → |c| ≤ 2 ^ 28 := fun c h => le_trans h (by norm_num)
  exact ⟨hb, hx fun p hp => wide _ (hb p hp).1, hy fun p hp => wide _ (hb p hp).2,
    hmx fun p hp => (hb p hp).1, hmy fun p hp => (hb p hp).2⟩


/-- C11: images 0 and 1 are registered and scanned, a frame finds image 1, and
    `removeImages` is called: the registry is empty and `m_predictedImage` is still 1, an
    index that no registered image has. -/
theorem stale_prediction_after_clear :
    (runCalls toyVision State.initial
        (toySetup ++ [.processImage (toyFrame 2), .removeImages])).map
      (fun s => (s.m_predictedImage, s.m_trainImageNum, s.m_trainImages.length,
        s.m_imagePages.length))
      = some (1, 0, 0, 0) := by
  decide!

/-- C12: a call of `processImage` that returns without having accepted an image writes the
    sentinel `-1` to `foundPage` and leaves `centerX`, `centerY` and `rotData` as the caller
    passed them; a call that returns having accepted image `i` (`doMatching i` answered
    "found" on this frame) writes to `foundPage` the entry `m_imagePages[i]`, the page
    `addImage` stored for registry index `i`. -/
theorem found_page_output (V : Vision) (s s1 : State) (f : FrameIn) (o1 : Output)
    (hr : (processFrame V s f).result = some (s1, o1)) :
    ((processFrame V s f).foundImage = -1 → o1 = { f.out with foundPage := -1 }) ∧
    ((processFrame V s f).foundImage ≠ -1 →
      (∃ s2, doMatching V (withQuery V s f.queryImage f.width f.height)
          (processFrame V s f).foundImage = some (true, s2)) ∧
      vecAt? s.m_imagePages (processFrame V s f).foundImage = some o1.foundPage) := by
  refine ⟨fun hf => processFrame_none_found V s s1 f o1 hr hf, fun hf => ?_⟩
  obtain ⟨p1, p2, h1, _, _, _, h5, h6⟩ := processFrame_found V s s1 f o1 hr hf
  refine ⟨⟨_, h1⟩, ?_⟩
  rw [← h5]
  exact reportPose_page V s1 _ _ _ _ _ o1 h6

/-- C12, in the small instance: the frame that finds image 1 reports page 8. -/
theorem found_page_output_witness :
    vecAt? (toyAfter toySetup).m_imagePages
        (processFrame toyVision (toyAfter toySetup) (toyFrame 2)).foundImage
      = some (8 : ℤ) :=
  ((found_page_output toyVision (toyAfter toySetup) (toyDecay 0) (toyFrame 2)
    ⟨8, 120, 120, [1, 0, 0, 0, 1, 0, 0, 0, 1]⟩ (by decide!)).2 (by decide!)).2

/-- C13: with image `p` predicted, on a frame that reaches the matching and on which
    `doMatching p` answers "not found", `processImage` calls `doMatching` on `p` alone,
    reports `foundPage = -1` with the other outputs untouched, leaves the attempts counter
    one lower, and clears the prediction exactly when the lowered counter is 0 (the
    prediction stays `p` otherwise). -/
theorem predicting_rejection (V : Vision) (s sq : State) (f : FrameIn) (p : ℤ)
    (hp : s.m_predictedImage = p) (hp1 : p ≠ -1)
    (hm : reachesMatching V s f = true)
    (hd : doMatching V (withQuery V s f.queryImage f.width f.height) p = some (false, sq)) :
    ∃ s1, processFrame V s f = ⟨[p], -1, some (s1, { f.out with foundPage := -1 })⟩ ∧
      s1.m_predictionCount = s.m_predictionCount - 1 ∧
      (s1.m_predictedImage = -1 ↔ s.m_predictionCount - 1 = 0) ∧
      (s.m_predictionCount - 1 ≠ 0 → s1.m_predictedImage = p) := by
  have hq : s.m_predictedImage ≠ -1 := by rw [hp]; exact hp1
  have e1 := processFrame_predicted V s f hm hq
  rw [hp] at e1
  simp only [hd] at e1
  have hsq := doMatching_false V _ _ _ hd
  subst hsq
  refine ⟨_, e1, ?_⟩
  have hcnt : (withQuery V s f.queryImage f.width f.height).m_predictionCount
      = s.m_predictionCount := rfl
  have hpi : (withQuery V s f.queryImage f.width f.height).m_predictedImage = p := hp
  rw [hcnt]
  split_ifs with h0
  · exact ⟨rfl, ⟨fun _ => h0, fun _ => rfl⟩, fun h => absurd h0 h⟩
  · refine ⟨rfl, ⟨fun h => ?_, fun h => absurd h h0⟩, fun _ => hpi⟩
    exact absurd (hpi.symm.trans h) hp1

/-- C13, in the small instance: image 1 is predicted with 3 attempts left and the frame
    shows image 0. -/
theorem predicting_rejection_witness :
    ∃ s1, processFrame toyVision (toyDecay 0) (toyFrame 1)
        = ⟨[1], -1, some (s1, { (toyFrame 1).out with foundPage := -1 })⟩ ∧
      s1.m_predictionCount = (toyDecay 0).m_predictionCount - 1 ∧
      (s1.m_predictedImage = -1 ↔ (toyDecay 0).m_predictionCount - 1 = 0) ∧
      ((toyDecay 0).m_predictionCount - 1 ≠ 0 → s1.m_predictedImage = 1) :=
  predicting_rejection toyVision (toyDecay 0) (withQuery toyVision (toyDecay 0) [1] 360 360)
    (toyFrame 1) 1 (by decide!) (by decide) (by decide!) (by decide!)

/-- C14: with a registered image `p` predicted, on a frame that reaches the matching and on
    which `doMatching p` answers "found", `processImage` calls `doMatching` on `p` alone,
    returns with the page of image `p` in `foundPage`, sets the attempts counter to
    `TOTAL_PREDICTION_ATTEMPTS` and keeps `m_predictedImage = p`. -/
theorem predicting_acceptance (V : Vision) (s sq : State) (f : FrameIn) (p : ℤ)
    (image : Mat) (page : ℤ)
    (hp : s.m_predictedImage = p) (hp1 : p ≠ -1)
    (hm : reachesMatching V s f = true)
    (hd : doMatching V (withQuery V s f.queryImage f.width f.height) p = some (true, sq))
    (hi : vecAt? s.m_trainImages p = some image) (hpg : vecAt? s.m_imagePages p = some page) :
    ∃ s1 o1, processFrame V s f = ⟨[p], p, some (s1, o1)⟩ ∧ o1.foundPage = page ∧
      s1.m_predictionCount = TOTAL_PREDICTION_ATTEMPTS ∧ s1.m_predictedImage = p := by
  have hq : s.m_predictedImage ≠ -1 := by rw [hp]; exact hp1
  have e1 := processFrame_predicted V s f hm hq
  rw [hp] at e1
  simp only [hd] at e1
  obtain ⟨p1, p2, hH⟩ := doMatching_true V _ _ _ hd
  have hsp : sq.m_predictedImage = p := by rw [hH]; exact hp
  have hsi : sq.m_trainImages = s.m_trainImages := by rw [hH]; rfl
  have hsg : sq.m_imagePages = s.m_imagePages := by rw [hH]; rfl
  obtain ⟨o1, ho, hpage⟩ := reportPose_some V
    { sq with m_predictionCount := TOTAL_PREDICTION_ATTEMPTS } sq.m_predictedImage
    f.width f.height (grayResized V f.queryImage f.width f.height QUERY_IMAGE_REQUIRED_SIZE)
    { f.out with foundPage := -1 } image page
    (by rw [hsp]; show vecAt? sq.m_trainImages p = some image; rw [hsi]; exact hi)
    (by rw [hsp]; show vecAt? sq.m_imagePages p = some page; rw [hsg]; exact hpg)
  rw [ho] at e1
  refine ⟨{ sq with m_predictionCount := TOTAL_PREDICTION_ATTEMPTS }, o1, ?_, hpage, rfl, hsp⟩
  rw [e1, hsp]
  rfl

/-- C14, in the small instance: image 1 is predicted and the frame shows it. -/
theorem predicting_acceptance_witness :
    ∃ s1 o1, processFrame toyVision (toyDecay 0) (toyFrame 2) = ⟨[1], 1, some (s1, o1)⟩ ∧
      o1.foundPage = 8 ∧ s1.m_predictionCount = TOTAL_PREDICTION_ATTEMPTS ∧
      s1.m_predictedImage = 1 :=
  predicting_acceptance toyVision (toyDecay 0)
    { withQuery toyVision (toyDecay 0) [2] 360 360 with
      m_H := ⟨3, 3, [1, 0, 3 / 4, 0, 1, 3 / 4, 0, 0, 1]⟩ }
    (toyFrame 2) 1 ⟨240, 240, [2]⟩ 8 (by decide!) (by decide) (by decide!) (by decide!)
    (by decide!) (by decide!)

/-- C15: with no image predicted, on a frame that reaches the matching, `processImage`
    calls `doMatching` on `0, 1, 2, …` in this order and stops at the first acceptance.  If
    an image `i` is found, every index below `i` was rejected and `i` accepted, all on this
    frame's keypoints and descriptors, and on return `m_predictedImage = i` and the counter
    is `TOTAL_PREDICTION_ATTEMPTS`.  If none is found and the call returns, every
    registered index was tried and rejected, `foundPage = -1`, and the tracker state is as
    before. -/
theorem idle_first_match (V : Vision) (s : State) (f : FrameIn)
    (hp : s.m_predictedImage = -1) (hm : reachesMatching V s f = true) :
    (∃ k, k ≤ s.m_trainImageNum ∧
      (processFrame V s f).calls = (List.range k).map (fun i : ℕ => (i : ℤ))) ∧
    (∀ i : ℕ, (processFrame V s f).foundImage = (i : ℤ) →
      i < s.m_trainImageNum ∧
      (processFrame V s f).calls = (List.range (i + 1)).map (fun i : ℕ => (i : ℤ)) ∧
      (∀ j : ℕ, j < i → doMatching V (withQuery V s f.queryImage f.width f.height) (j : ℤ)
        = some (false, withQuery V s f.queryImage f.width f.height)) ∧
      (∃ s2, doMatching V (withQuery V s f.queryImage f.width f.height) (i : ℤ)
        = some (true, s2)) ∧
      ∀ s1 o1, (processFrame V s f).result = some (s1, o1) →
        s1.m_predictedImage = (i : ℤ) ∧ s1.m_predictionCount = TOTAL_PREDICTION_ATTEMPTS) ∧
    ((processFrame V s f).foundImage = -1 →
      ∀ s1 o1, (processFrame V s f).result = some (s1, o1) →
        (processFrame V s f).calls
          = (List.range s.m_trainImageNum).map (fun i : ℕ => (i : ℤ)) ∧
        (∀ j : ℕ, j < s.m_trainImageNum →
          doMatching V (withQuery V s f.queryImage f.width f.height) (j : ℤ)
            = some (false, withQuery V s f.queryImage f.width f.height)) ∧
        o1.foundPage = -1 ∧ s1.m_predictedImage = -1 ∧
        s1.m_predictionCount = s.m_predictionCount) ∧
    ((processFrame V s f).foundImage = -1 ∨
      ∃ i : ℕ, (processFrame V s f).foundImage = (i : ℤ)) := by
  have hpq : (withQuery V s f.queryImage f.width f.height).m_predictedImage = -1 := hp
  have key := scanLoop_idle V (List.range s.m_trainImageNum)
    (withQuery V s f.queryImage f.width f.height) hpq
  rw [processFrame_scan V s f hm hp]
  rcases hs : scanLoop V (List.range s.m_trainImageNum)
      (withQuery V s f.queryImage f.width f.height) with ⟨calls, res⟩
  rw [hs] at key
  simp only at key
  rcases key with ⟨h1, h2, h3⟩ | ⟨pre, i, post, h1, h2, h3, h4⟩
  · -- every index was tried and rejected
    subst h1 h2
    simp only [ne_eq, not_true_eq_false, if_false]
    refine ⟨⟨s.m_trainImageNum, le_refl _, rfl⟩, ?_, ?_, by first | exact Or.inl rfl | exact Or.inl trivial⟩
    · intro i hi
      omega
    · intro _ s1 o1 hr
      simp only [Option.some.injEq, Prod.mk.injEq] at hr
      obtain ⟨hr1, hr2⟩ := hr
      subst hr1 hr2
      exact ⟨by first | rfl | trivial, fun j hj => h3 j (List.mem_range.mpr hj), rfl, hp, rfl⟩
  · obtain ⟨hpre, hin⟩ := range_split _ _ _ _ h1
    subst hpre
    have hcalls : calls = (List.range (i + 1)).map (fun i : ℕ => (i : ℤ)) := by
      rw [h2, List.range_succ]
    subst hcalls
    rcases h4 with ⟨h5, h6⟩ | ⟨s2, h5, h6⟩
    · -- `doMatching` did not return on index `i`
      subst h6
      simp only
      refine ⟨⟨i + 1, hin, rfl⟩, ?_, ?_, by first | exact Or.inl rfl | exact Or.inl trivial⟩
      · intro k hk
        omega
      · intro _ s1 o1 hr
        simp at hr
    · -- index `i` is the first accepted
      subst h6
      have hne : (i : ℤ) ≠ -1 := by omega
      simp only [if_pos hne]
      refine ⟨⟨i + 1, hin, rfl⟩, ?_, ?_, Or.inr ⟨i, rfl⟩⟩
      · intro k hk
        have hk2 : k = i := by exact_mod_cast hk.symm
        subst hk2
        refine ⟨hin, rfl, fun j hj => h3 j (List.mem_range.mpr hj), ⟨s2, h5⟩, ?_⟩
        intro s1 o1 hr
        simp only [Option.map_eq_some', Prod.mk.injEq] at hr
        obtain ⟨o, _, hr1, _⟩ := hr
        subst hr1
        exact ⟨rfl, rfl⟩
      · intro hcontra
        exact absurd hcontra hne

/-- C15, in the small instance: nothing is predicted and the frame shows image 1; image 0
    is tried and rejected, image 1 is tried and found. -/
theorem idle_first_match_witness :
    (1 < (toyAfter toySetup).m_trainImageNum ∧
      (processFrame toyVision (toyAfter toySetup) (toyFrame 2)).calls
        = (List.range (1 + 1)).map (fun i : ℕ => (i : ℤ)) ∧
      (∀ j : ℕ, j < 1 →
        doMatching toyVision (withQuery toyVision (toyAfter toySetup) [2] 360 360) (j : ℤ)
          = some (false, withQuery toyVision (toyAfter toySetup) [2] 360 360)) ∧
      (∃ s2, doMatching toyVision (withQuery toyVision (toyAfter toySetup) [2] 360 360)
          ((1 : ℕ) : ℤ) = some (true, s2)) ∧
      ∀ s1 o1, (processFrame toyVision (toyAfter toySetup) (toyFrame 2)).result
          = some (s1, o1) →
        s1.m_predictedImage = ((1 : ℕ) : ℤ) ∧
        s1.m_predictionCount = TOTAL_PREDICTION_ATTEMPTS) ∧
    (processFrame toyVision (toyAfter toySetup) (toyFrame 2)).calls = [0, 1] :=
  ⟨(idle_first_match toyVision (toyAfter toySetup) (toyFrame 2) (by decide!)
      (by decide!)).2.1 1 (by decide!), by decide!⟩

/-- C18: in an initialized library, on a frame from which `detectAndCompute` returns no
    keypoint or descriptors without columns, `processImage` makes no call of `doMatching`,
    reports `foundPage = -1` with the other outputs untouched, and changes no global but
    the query keypoints and descriptors: `m_predictedImage` and `m_predictionCount` are as
    before. -/
theorem degenerate_frame (V : Vision) (s : State) (f : FrameIn)
    (hi : s.m_initialized = true) (hw : 0 < f.width) (hh : 0 < f.height)
    (hq : (V.detectAndCompute (grayResized V f.queryImage f.width f.height
              QUERY_IMAGE_REQUIRED_SIZE)).1.length = 0 ∨
          (V.detectAndCompute (grayResized V f.queryImage f.width f.height
              QUERY_IMAGE_REQUIRED_SIZE)).2.cols = 0) :
    processFrame V s f = ⟨[], -1, some (withQuery V s f.queryImage f.width f.height,
      { f.out with foundPage := -1 })⟩ ∧
    (withQuery V s f.queryImage f.width f.height).m_predictedImage = s.m_predictedImage ∧
    (withQuery V s f.queryImage f.width f.height).m_predictionCount = s.m_predictionCount := by
  have hd : ¬ (f.width ≤ 0 ∨ f.height ≤ 0) := by omega
  have hq2 : (withQuery V s f.queryImage f.width f.height).m_queryImageKeypoints.length = 0 ∨
      (withQuery V s f.queryImage f.width f.height).m_queryImageDescriptors.cols = 0 := hq
  refine ⟨?_, rfl, rfl⟩
  unfold processFrame processImage
  simp only [hi, hd, hq2, Bool.not_true, Bool.false_eq_true, if_false, if_true]

/-- C18, in the small instance: a 360×360 frame without any entry yields no keypoint. -/
theorem degenerate_frame_witness :
    processFrame toyVision (toyAfter toySetup) ⟨[], 360, 360, out0⟩
      = ⟨[], -1, some (withQuery toyVision (toyAfter toySetup) [] 360 360,
          { out0 with foundPage := -1 })⟩ ∧
    (withQuery toyVision (toyAfter toySetup) [] 360 360).m_predictedImage
      = (toyAfter toySetup).m_predictedImage ∧
    (withQuery toyVision (toyAfter toySetup) [] 360 360).m_predictionCount
      = (toyAfter toySetup).m_predictionCount :=
  degenerate_frame toyVision (toyAfter toySetup) ⟨[], 360, 360, out0⟩ (by decide!) (by decide)
    (by decide) (Or.inl (by decide!))

/-- C19: in every state that a sequence of calls of `addImage`, `initScan`, `removeImages`
    and `processImage` leads to from the initial globals, `m_predictionCount` is between 0
    and `TOTAL_PREDICTION_ATTEMPTS`, and it is at least 1 whenever `m_predictedImage` is
    not `-1`. -/
theorem tracker_count_invariant (V : Vision) (s : State) (h : Reachable V s) :
    0 ≤ s.m_predictionCount ∧ s.m_predictionCount ≤ TOTAL_PREDICTION_ATTEMPTS ∧
    (s.m_predictedImage ≠ -1 → 1 ≤ s.m_predictionCount) := by
  obtain ⟨cs, hcs⟩ := h
  exact runCalls_tracker V cs State.initial s ⟨by decide, by decide, fun _ => by decide⟩ hcs

/-- C19, in the small instance: after image 1 was found and missed once, the counter is 2. -/
theorem tracker_count_invariant_witness :
    (0 ≤ (toyDecay 1).m_predictionCount ∧
      (toyDecay 1).m_predictionCount ≤ TOTAL_PREDICTION_ATTEMPTS ∧
      ((toyDecay 1).m_predictedImage ≠ -1 → 1 ≤ (toyDecay 1).m_predictionCount)) ∧
    (toyDecay 1).m_predictionCount = 2 ∧ (toyDecay 1).m_predictedImage = 1 :=
  ⟨tracker_count_invariant toyVision (toyDecay 1)
      ⟨toySetup ++ [.processImage (toyFrame 2), .processImage (toyFrame 1)], by decide!⟩,
   by decide!, by decide!⟩

/-- C20: `processImage` equals, in its calls of `doMatching`, its `foundImage`, its
    outputs and the globals it leaves, the variant whose scan loop has no
    `if (i == m_predictedImage) continue;`: whenever the scan loop runs (the block for the
    predicted image ended without `return` and with `foundImage == -1`),
    `m_predictedImage` is `-1`, and from such globals the loop skips no index. -/
theorem skip_branch_unreachable (V : Vision) (s : State) (queryImage : List ℚ)
    (width height : ℤ) (out : Output) :
    processImage V s queryImage width height out
      = processImageNoSkip V s queryImage width height out ∧
    (∀ (calls : List ℤ) (foundImage : ℤ) (s1 : State),
      lookForPredicted V (withQuery V s queryImage width height)
        = (calls, some (false, foundImage, s1)) →
      foundImage = -1 →
      s1.m_predictedImage = -1 ∧
      ∀ is : List ℕ, scanLoop V is s1 = scanLoopNoSkip V is s1) := by
  constructor
  · unfold processImage processImageNoSkip
    simp only
    split_ifs with h1 h2 h3
    · rfl
    · rfl
    · rfl
    · rcases hl : lookForPredicted V (withQuery V s queryImage width height)
        with ⟨calls, _ | ⟨_ | _, fi, s1⟩⟩
      · rfl
      · simp only
        by_cases hfi : fi = -1
        · have hp := lookForPredicted_scan V _ _ _ _ hl hfi
          simp only [if_pos hfi, scanLoop_eq_noSkip V _ s1 hp]
          try rfl
        · simp only [if_neg hfi]
      · rfl
  · intro calls fi s1 hl hfi
    have hp := lookForPredicted_scan V _ _ _ _ hl hfi
    exact ⟨hp, fun is => scanLoop_eq_noSkip V is s1 hp⟩

/-- C16: for a non-empty list of Filter 1 survivors (of any distances, non-negative ones
    in particular), with `m0` a survivor of least distance and the ceiling
    `m0.distance * MIN_DISTANCE_FACTOR` formed in `float`, Filter 2 returns the sorted list
    cut by "take while `distance ≤ ceiling`", which is the sorted list filtered by
    `distance ≤ ceiling`: exactly the survivors within the ceiling, in ascending order of
    distance. -/
theorem filter2_take_while (goodMatches : List DMatch) (hne : goodMatches ≠ []) :
    ∃ m0 ∈ goodMatches, (∀ m ∈ goodMatches, m0.distance ≤ m.distance) ∧
      filter2 goodMatches = (sortMatches goodMatches).takeWhile
        (fun m => decide (m.distance ≤ mulF32 m0.distance MIN_DISTANCE_FACTOR)) ∧
      filter2 goodMatches = (sortMatches goodMatches).filter
        (fun m => decide (m.distance ≤ mulF32 m0.distance MIN_DISTANCE_FACTOR)) ∧
      (filter2 goodMatches).Perm (goodMatches.filter
        (fun m => decide (m.distance ≤ mulF32 m0.distance MIN_DISTANCE_FACTOR))) ∧
      (filter2 goodMatches).Sorted (fun a b => a.distance ≤ b.distance) := by
  have hsorted := sortMatches_sorted goodMatches
  have hperm := sortMatches_perm goodMatches
  cases hs : sortMatches goodMatches with
  | nil =>
    rw [hs] at hperm
    exact absurd (List.Perm.nil_eq hperm).symm hne
  | cons m0 rest =>
    rw [hs] at hsorted hperm
    have hmem : m0 ∈ goodMatches := hperm.subset (List.mem_cons_self _ _)
    have hmin : ∀ m ∈ goodMatches, m0.distance ≤ m.distance := by
      intro m hm
      rcases List.mem_cons.mp (hperm.symm.subset hm) with h | h
      · rw [h]
      · exact List.rel_of_sorted_cons hsorted m h
    have h1 : filter2 goodMatches = (m0 :: rest).takeWhile
        (fun m => decide (m.distance ≤ mulF32 m0.distance MIN_DISTANCE_FACTOR)) := by
      unfold filter2
      rw [hs]
      exact eraseFromFirstExceeding_eq_takeWhile _ _
    have h2 := takeWhile_eq_filter_of_sorted (mulF32 m0.distance MIN_DISTANCE_FACTOR) _ hsorted
    refine ⟨m0, hmem, hmin, h1, h1.trans h2, ?_, ?_⟩
    · rw [h1, h2]
      exact hperm.filter _
    · rw [h1, h2]
      exact hsorted.filter _

/-- C16, on four matches of distances 10, 2, 7 and 5: the ceiling is 6, and the matches
    of distances 2 and 5 remain. -/
theorem filter2_take_while_witness :
    (∃ m0 ∈ [(⟨0, 0, 0, 10⟩ : DMatch), ⟨1, 1, 0, 2⟩, ⟨2, 2, 0, 7⟩, ⟨3, 3, 0, 5⟩],
      (∀ m ∈ [(⟨0, 0, 0, 10⟩ : DMatch), ⟨1, 1, 0, 2⟩, ⟨2, 2, 0, 7⟩, ⟨3, 3, 0, 5⟩],
        m0.distance ≤ m.distance) ∧
      filter2 [⟨0, 0, 0, 10⟩, ⟨1, 1, 0, 2⟩, ⟨2, 2, 0, 7⟩, ⟨3, 3, 0, 5⟩]
        = (sortMatches [⟨0, 0, 0, 10⟩, ⟨1, 1, 0, 2⟩, ⟨2, 2, 0, 7⟩, ⟨3, 3, 0, 5⟩]).takeWhile
          (fun m => decide (m.distance ≤ mulF32 m0.distance MIN_DISTANCE_FACTOR)) ∧
      filter2 [⟨0, 0, 0, 10⟩, ⟨1, 1, 0, 2⟩, ⟨2, 2, 0, 7⟩, ⟨3, 3, 0, 5⟩]
        = (sortMatches [⟨0, 0, 0, 10⟩, ⟨1, 1, 0, 2⟩, ⟨2, 2, 0, 7⟩, ⟨3, 3, 0, 5⟩]).filter
          (fun m => decide (m.distance ≤ mulF32 m0.distance MIN_DISTANCE_FACTOR)) ∧
      (filter2 [⟨0, 0, 0, 10⟩, ⟨1, 1, 0, 2⟩, ⟨2, 2, 0, 7⟩, ⟨3, 3, 0, 5⟩]).Perm
        ([(⟨0, 0, 0, 10⟩ : DMatch), ⟨1, 1, 0, 2⟩, ⟨2, 2, 0, 7⟩, ⟨3, 3, 0, 5⟩].filter
          (fun m => decide (m.distance ≤ mulF32 m0.distance MIN_DISTANCE_FACTOR))) ∧
      (filter2 [⟨0, 0, 0, 10⟩, ⟨1, 1, 0, 2⟩, ⟨2, 2, 0, 7⟩, ⟨3, 3, 0, 5⟩]).Sorted
        (fun a b => a.distance ≤ b.distance)) ∧
    filter2 [⟨0, 0, 0, 10⟩, ⟨1, 1, 0, 2⟩, ⟨2, 2, 0, 7⟩, ⟨3, 3, 0, 5⟩]
      = [⟨1, 1, 0, 2⟩, ⟨3, 3, 0, 5⟩] :=
  ⟨filter2_take_while [⟨0, 0, 0, 10⟩, ⟨1, 1, 0, 2⟩, ⟨2, 2, 0, 7⟩, ⟨3, 3, 0, 5⟩] (by decide),
   by decide!⟩

/-- C17, as stated, fails: of 801 keypoints, one of response 5 and 800 of response 3, the
    limit is `5 * 0.6f = 3`; the keypoints of response 3 are not below the limit, and the
    reduction discards all 800 of them. -/
theorem keypointReduction_discards_at_limit :
    toyKeypoints.length = 801 ∧
    (∀ k ∈ toyKeypoints, k.response ≤ (toyKp 5).response) ∧
    mulF32 (toyKp 5).response MIN_RESPONSE_FACTOR = 3 ∧
    toyKp 3 ∈ toyKeypoints ∧
    ¬ (toyKp 3).response < mulF32 (toyKp 5).response MIN_RESPONSE_FACTOR ∧
    keypointReduction toyKeypoints = [toyKp 5] ∧
    toyKp 3 ∉ keypointReduction toyKeypoints := by
  refine ⟨toyKeypoints_length, ?_, by decide!,
    List.mem_cons_of_mem _ (List.mem_replicate.mpr ⟨by decide, rfl⟩), by decide!,
    keypointReduction_toyKeypoints, ?_⟩
  · intro k hk
    unfold toyKeypoints at hk
    rw [List.mem_cons, List.mem_replicate] at hk
    rcases hk with h | ⟨_, h⟩
    · rw [h]
    · rw [h]; decide!
  · rw [keypointReduction_toyKeypoints]
    decide!

/-- C17, amended: a list of at most `MIN_KEYPOINTS_FOR_REDUCTION` keypoints is left as it
    is.  A longer list is reduced to a sublist (original order kept) in which every
    keypoint has a response strictly above `maxResponse * MIN_RESPONSE_FACTOR` (responses
    being non-negative `float` values), so that a keypoint at or below that limit is
    discarded; and every keypoint whose response is a whole number strictly above the limit
    is kept. -/
theorem keypointReduction_kept (kps : List KeyPoint) :
    (kps.length ≤ MIN_KEYPOINTS_FOR_REDUCTION → keypointReduction kps = kps) ∧
    (MIN_KEYPOINTS_FOR_REDUCTION < kps.length →
      ∃ kmax ∈ kps, (∀ k ∈ kps, k.response ≤ kmax.response) ∧
        (keypointReduction kps).Sublist kps ∧
        (∀ k ∈ keypointReduction kps, 0 ≤ k.response → roundF32 k.response = k.response →
          mulF32 kmax.response MIN_RESPONSE_FACTOR < k.response) ∧
        (∀ k ∈ kps, (∃ z : ℤ, k.response = (z : ℚ)) → roundF32 k.response = k.response →
          mulF32 kmax.response MIN_RESPONSE_FACTOR < k.response → k ∈ keypointReduction kps)) := by
  constructor
  · intro h
    unfold keypointReduction
    rw [if_neg (by omega)]
  · intro h
    obtain ⟨kmax, hmem, hmax, heq⟩ := keypointReduction_mem_iff kps h
    refine ⟨kmax, hmem, hmax, ?_, ?_, ?_⟩
    · rw [heq]; exact List.filter_sublist _
    · intro k hk h0 hfl
      rw [heq, List.mem_filter] at hk
      have h1 := of_decide_eq_true hk.2
      have h2 : intToF32 (truncToInt k.response) ≤ k.response := by
        unfold intToF32
        rw [truncToInt_nonneg h0]
        have hf0 : (0 : ℚ) ≤ ((⌊k.response⌋ : ℤ) : ℚ) := by
          exact_mod_cast Int.floor_nonneg.mpr h0
        have := roundF32_mono_nonneg hf0 (Int.floor_le k.response)
        rwa [hfl] at this
      exact lt_of_lt_of_le h1 h2
    · intro k hk hz hfl hlt
      rw [heq, List.mem_filter]
      refine ⟨hk, decide_eq_true ?_⟩
      obtain ⟨z, hz⟩ := hz
      have : intToF32 (truncToInt k.response) = k.response := by
        unfold intToF32
        rw [hz, truncToInt_intCast, ← hz, hfl]
      rw [this]
      exact hlt

/-- C17 amended, on the 801 keypoints of responses 5 and 3. -/
theorem keypointReduction_kept_witness :
    ∃ kmax ∈ toyKeypoints, (∀ k ∈ toyKeypoints, k.response ≤ kmax.response) ∧
      (keypointReduction toyKeypoints).Sublist toyKeypoints ∧
      (∀ k ∈ keypointReduction toyKeypoints, 0 ≤ k.response →
        roundF32 k.response = k.response →
        mulF32 kmax.response MIN_RESPONSE_FACTOR < k.response) ∧
      (∀ k ∈ toyKeypoints, (∃ z : ℤ, k.response = (z : ℚ)) →
        roundF32 k.response = k.response →
        mulF32 kmax.response MIN_RESPONSE_FACTOR < k.response →
        k ∈ keypointReduction toyKeypoints) :=
  (keypointReduction_kept toyKeypoints).2 (by rw [toyKeypoints_length]; decide)

end OpenCVAndroidLibrary
